import Mathlib

/-!
Verification of the robopilot notification hub against its specification.

Shallow embedding conventions:
* Rust strings are `List Char`; raw transport bytes are `Nat` (one entry per
  byte, values < 256 for real inputs).
* `char::is_whitespace` (Unicode White_Space) is modelled by the exact list of
  its 25 code points.  `char::is_alphanumeric` is Unicode-table driven in Rust;
  it is modelled here exactly on the ASCII range (the non-ASCII rows of the
  Unicode tables are not enumerated).  All concrete inputs used by the
  theorems below are ASCII, where the model is exact.
* `String::from_utf8_lossy` is modelled exactly on ASCII bytes; each non-ASCII
  byte becomes one U+FFFD replacement character (multi-byte sequences are not
  reassembled; no theorem below depends on non-ASCII decoding).
* `Uuid::new_v4` (fresh with cryptographic probability) and
  `tokio::sync::broadcast::channel` allocation are modelled by strictly
  increasing counters; a broadcast channel is identified by its counter value
  and a receiver delivers a message iff the message was sent on the broadcast
  the receiver was subscribed on.
* `f64` timestamps are ignored: message equality in the repository's own tests
  is on (channel, data), and no claim mentions timestamps.
-/

namespace Robopilot

/-- Rust strings, one entry per char. -/
abbrev Str := List Char

/-- Model of Rust `char::is_whitespace`: the 25 code points of the Unicode
White_Space property, enumerated exactly. -/
def rustIsWhitespace (c : Char) : Bool :=
  c.toNat = 0x09 || c.toNat = 0x0A || c.toNat = 0x0B || c.toNat = 0x0C ||
  c.toNat = 0x0D || c.toNat = 0x20 || c.toNat = 0x85 || c.toNat = 0xA0 ||
  c.toNat = 0x1680 || (0x2000 ≤ c.toNat && c.toNat ≤ 0x200A) ||
  c.toNat = 0x2028 || c.toNat = 0x2029 || c.toNat = 0x202F ||
  c.toNat = 0x205F || c.toNat = 0x3000

/-- Model of Rust `char::is_alphanumeric`, exact on the ASCII range
(`a`-`z` = 97..122, `A`-`Z` = 65..90, `0`-`9` = 48..57); the non-ASCII rows of
the Unicode Alphabetic/Number tables are not enumerated. -/
def rustIsAlphanumeric (c : Char) : Bool :=
  (97 ≤ c.toNat && c.toNat ≤ 122) || (65 ≤ c.toNat && c.toNat ≤ 90) ||
  (48 ≤ c.toNat && c.toNat ≤ 57)

/-- Model of Rust `char::to_ascii_lowercase`: shift `A`-`Z` (65..90) by 32,
leave every other char unchanged. -/
def asciiLower (c : Char) : Char :=
  if 65 ≤ c.toNat && c.toNat ≤ 90 then Char.ofNat (c.toNat + 32) else c

/-- Rust `str::trim_matches p`: drop the longest prefix and suffix whose chars
satisfy `p`. -/
def rustTrimMatches (p : Char → Bool) (s : Str) : Str :=
  ((s.dropWhile p).reverse.dropWhile p).reverse

/-- Trim predicate of `HubChannelName::try_from`:
`c.is_whitespace() || c == '\n' || c == '\r'`. -/
def hubTrimPred (c : Char) : Bool :=
  rustIsWhitespace c || c == '\n' || c == '\r'

/-- Model of `HubChannelName::try_from` (hub_channel_name.rs): trim whitespace
from both ends, reject an internal newline or carriage return, reject any char
that is not alphanumeric, underscore or whitespace, reject any remaining space,
and return the ASCII-lowercased trimmed string. -/
def HubChannelName.try_from (value : Str) : Except String Str :=
  let trimmed := rustTrimMatches hubTrimPred value
  if trimmed.contains '\n' || trimmed.contains '\r' then
    .error "Invalid channel name: Newlines are not allowed in the middle."
  else if trimmed.any (fun c => !(rustIsAlphanumeric c || c == '_' || rustIsWhitespace c)) then
    .error "Invalid channel name: Only alphanumeric characters and underscore are allowed."
  else if trimmed.contains ' ' then
    .error "Invalid channel name: Whitespace is only allowed at the beginning or end."
  else
    .ok (trimmed.map asciiLower)

/-- Chars kept by `SerialChannelName::try_from`:
`!c.is_whitespace() && c != '\n' && c != '\r'`. -/
def serialKeepPred (c : Char) : Bool :=
  !(rustIsWhitespace c || c == '\n' || c == '\r')

/-- Model of `SerialChannelName::try_from` (serial/channels.rs): ASCII-lowercase
the input, drop every whitespace char (anywhere, not only at the ends), then
accept iff every remaining char is alphanumeric or underscore. -/
def SerialChannelName.try_from (value : Str) : Except String Str :=
  let name := (value.map asciiLower).filter serialKeepPred
  if name.all (fun c => rustIsAlphanumeric c || c == '_') then .ok name
  else .error "Invalid channel name. Only alphanumeric and underscore characters allowed."

/-- Model of `SerialChannelName::tag`: the on-wire form `##name##`. -/
def SerialChannelName.tag (name : Str) : Str :=
  '#' :: '#' :: name ++ ['#', '#']

/-- Trim predicate of `HubData::from_str`: `c == ' ' || c == '\n' || c == '\r'`. -/
def hubDataTrimPred (c : Char) : Bool :=
  c == ' ' || c == '\n' || c == '\r'

/-- Model of `HubData::from_str` (hub_data.rs), also standing for
`str::parse::<HubData>()`.  Modelled from the spec: the `FromStr` impl behind
`parse::<HubData>()` is not under src/; per spec section 4.1 Payload
construction trims space, newline and carriage return from both ends and
preserves internal content verbatim, exactly as the inherent
`HubData::from_str` in hub_data.rs does. -/
def HubData.from_str (data : Str) : Str :=
  rustTrimMatches hubDataTrimPred data

/-- Spec-side predicate of claim C1 (written from the claim, not the code):
after trimming leading/trailing whitespace, newline and carriage return, the
remainder is non-empty and consists only of ASCII alphanumerics and underscore. -/
def c1SpecAccepts (s : Str) : Prop :=
  let t := rustTrimMatches hubTrimPred s
  t ≠ [] ∧ ∀ c ∈ t, rustIsAlphanumeric c = true ∨ c = '_'

/-! ### Serial streaming decoder (serial/client.rs and serial/message.rs) -/

/-- Unicode replacement character U+FFFD. -/
def replacementChar : Char := Char.ofNat 0xFFFD

/-- Model of `String::from_utf8_lossy`, exact on ASCII bytes; every byte
≥ 0x80 becomes one U+FFFD (multi-byte sequences are not reassembled). -/
def decodeLossy : List Nat → Str
  | [] => []
  | b :: rest =>
    (if b < 0x80 then Char.ofNat b else replacementChar) :: decodeLossy rest

/-- Index of the first occurrence of the substring `##`, as in
`str::find("##")` (char index; every concrete use slices at `#` boundaries, so
char and byte indices agree). -/
def findHH : Str → Option Nat
  | [] => none
  | c :: rest =>
    if c = '#' ∧ rest.head? = some '#' then some 0
    else (findHH rest).map (· + 1)

/-- Trim predicate used on the payload inside `extract_info`:
`c == '\n' || c == '\r' || c == ' '`. -/
def serialDataTrimPred (c : Char) : Bool :=
  c == '\n' || c == '\r' || c == ' '

/-- Model of `SerialRawMessage::extract_info` (serial/message.rs): locate the
first `##`, locate the next `##` after it, validate the chars between as a
serial channel name, and trim newline/CR/space from both ends of the rest. -/
def SerialRawMessage.extract_info (raw : Str) : Option (Str × Str) :=
  match findHH raw with
  | none => none
  | some start =>
    let after := raw.drop (start + 2)
    match findHH after with
    | none => none
    | some stop =>
      let rawChannel := after.take stop
      let data := rustTrimMatches serialDataTrimPred (after.drop (stop + 2))
      match SerialChannelName.try_from rawChannel with
      | .ok name => some (name, data)
      | .error _ => none

/-- Model of `HubChannelName::from(SerialChannelName)`: the source unwraps
`HubChannelName::try_from`; the `.getD []` default models the panic branch,
shown unreachable by claim C10. -/
def HubChannelName.fromSerial (s : Str) : Str :=
  ((HubChannelName.try_from s).toOption).getD []

/-- One decoded message as observed through the hub: (channel, data).
Timestamps (stamped from the wall clock at construction) are not modelled;
the repository compares messages on (channel, data). -/
abbrev Msg := Str × Str

/-- Per-line step of the reader loop in `SerialClient::start`: decode the line
(bytes up to and including the LF), and if it starts with `##`, convert it via
`SerialRawMessage::extract_info` into a message: the channel goes through
`HubChannelName::from` and the payload through `HubData::from`
(`parse::<HubData>()`).  Lines without the `##` prefix or failing extraction
yield no message (they are only logged). -/
def SerialClient.processLine (line : List Nat) : Option Msg :=
  let s := decodeLossy line
  if s.take 2 = ['#', '#'] then
    match SerialRawMessage.extract_info s with
    | some (name, data) => some (HubChannelName.fromSerial name, HubData.from_str data)
    | none => none
  else none

/-- Drain loop of `SerialClient::start` on `acc ++ input`: repeatedly split at
the earliest LF (byte 10); returns the complete lines (each including its LF)
and the remaining buffer (LF-free whenever `acc` is). -/
def drainAux (acc : List Nat) : List Nat → List (List Nat) × List Nat
  | [] => ([], acc)
  | b :: rest =>
    if b = 10 then
      let r := drainAux [] rest
      ((acc ++ [10]) :: r.1, r.2)
    else drainAux (acc ++ [b]) rest

/-- Complete lines and leftover of a byte buffer. -/
def drainLines (buf : List Nat) : List (List Nat) × List Nat :=
  drainAux [] buf

/-- Feeding one read chunk to the streaming decoder: append to the line
buffer, split off every complete line, parse each.  Returns the new line
buffer and the messages emitted by this chunk. -/
def SerialClient.feedChunk (st : List Nat) (chunk : List Nat) : List Nat × List Msg :=
  let r := drainLines (st ++ chunk)
  (r.2, r.1.filterMap SerialClient.processLine)

/-- Feeding a sequence of read chunks one at a time. -/
def SerialClient.feedChunks (st : List Nat) : List (List Nat) → List Nat × List Msg
  | [] => (st, [])
  | c :: cs =>
    let r := SerialClient.feedChunk st c
    let r2 := SerialClient.feedChunks r.1 cs
    (r2.1, r.2 ++ r2.2)

/-- Bytes of an ASCII string, for concrete streams. -/
def asciiBytes (s : Str) : List Nat := s.map Char.toNat

/-! ### Hub manager (services/hub/controller.rs, channel.rs, user.rs) -/

/-- Per-channel state of `HubChannels`: the broadcast sender (identified by
its allocation counter value) and the set of subscriber ids. -/
structure HubChannelInfo where
  sender : Nat
  subscribers : List Nat
deriving DecidableEq, Repr

/-- Insertion into a `HashSet` modelled on a duplicate-free list. -/
def insertUid (l : List Nat) (u : Nat) : List Nat :=
  if u ∈ l then l else l ++ [u]

/-- Apply `f` to the value stored under key `k` of an association-list map. -/
def updateEntry (m : List (Str × HubChannelInfo)) (k : Str)
    (f : HubChannelInfo → HubChannelInfo) : List (Str × HubChannelInfo) :=
  m.map (fun e => if e.1 = k then (e.1, f e.2) else e)

/-- Remove the entry stored under key `k` (a `HashMap::remove`). -/
def removeEntry (m : List (Str × HubChannelInfo)) (k : Str) :
    List (Str × HubChannelInfo) :=
  m.filter (fun e => e.1 ≠ k)

/-- Model of `HubChannels::subscribe_user`: get-or-create the entry (a fresh
broadcast is allocated only when the entry is created), insert the fresh user
id, return the map and the `HubReceiver` (user id, subscribed broadcast). -/
def HubChannels.subscribe_user (m : List (Str × HubChannelInfo)) (channel : Str)
    (freshUser freshSender : Nat) :
    List (Str × HubChannelInfo) × (Nat × Nat) :=
  match m.lookup channel with
  | some info =>
    (updateEntry m channel (fun i => { i with subscribers := insertUid i.subscribers freshUser }),
      (freshUser, info.sender))
  | none =>
    (m ++ [(channel, { sender := freshSender, subscribers := [freshUser] })],
      (freshUser, freshSender))

/-- Model of `HubChannels::get_number_subscribers`. -/
def HubChannels.get_number_subscribers (m : List (Str × HubChannelInfo)) (channel : Str) : Nat :=
  match m.lookup channel with
  | some info => info.subscribers.length
  | none => 0

/-- Model of `HubChannels::is_empty`: no subscribers in the channel; `true`
when the channel has no entry at all. -/
def HubChannels.is_empty (m : List (Str × HubChannelInfo)) (channel : Str) : Bool :=
  match m.lookup channel with
  | some info => info.subscribers.isEmpty
  | none => true

/-- Model of `HubChannels::unsubscribe_user`: remove the user id from the
entry (no-op when the entry is absent), then remove the entry if it has no
subscribers left. -/
def HubChannels.unsubscribe_user (m : List (Str × HubChannelInfo)) (channel : Str)
    (userId : Nat) : List (Str × HubChannelInfo) :=
  match m.lookup channel with
  | some info =>
    let m2 := updateEntry m channel
      (fun _ => { info with subscribers := info.subscribers.filter (fun u => u ≠ userId) })
    if HubChannels.is_empty m2 channel then removeEntry m2 channel else m2
  | none => m

/-- Model of `HubChannels::get_sender`. -/
def HubChannels.get_sender (m : List (Str × HubChannelInfo)) (channel : Str) : Option Nat :=
  (m.lookup channel).map (fun info => info.sender)

/-- Replace-or-insert of a channel into one user's subscription map
(`HashMap::insert`, keyed by channel name; the stored receiver handle is not
tracked). -/
def insertTopic (topics : List Str) (channel : Str) : List Str :=
  if channel ∈ topics then topics else topics ++ [channel]

/-- Model of `HubUsers::subscribe_user`. -/
def HubUsers.subscribe_user (us : List (Nat × List Str)) (channel : Str) (userId : Nat) :
    List (Nat × List Str) :=
  match us.lookup userId with
  | some topics =>
    us.map (fun e => if e.1 = userId then (e.1, insertTopic topics channel) else e)
  | none => us ++ [(userId, [channel])]

/-- Model of `HubUsers::unsubscribe_user`: drop the channel from the user's
map and prune the user when no subscription remains. -/
def HubUsers.unsubscribe_user (us : List (Nat × List Str)) (channel : Str) (userId : Nat) :
    List (Nat × List Str) :=
  match us.lookup userId with
  | some topics =>
    let topics2 := topics.filter (fun t => t ≠ channel)
    if topics2.isEmpty then us.filter (fun e => e.1 ≠ userId)
    else us.map (fun e => if e.1 = userId then (e.1, topics2) else e)
  | none => us

/-- State of the `HubManager`: the channel map, the subscriber map, and the
freshness counters standing for `Uuid::new_v4` and broadcast allocation. -/
structure HubManagerSt where
  entries : List (Str × HubChannelInfo)
  users : List (Nat × List Str)
  nextUser : Nat
  nextSender : Nat
deriving DecidableEq, Repr

/-- The empty `HubManager::new` state. -/
def HubManager.initSt : HubManagerSt :=
  { entries := [], users := [], nextUser := 0, nextSender := 0 }

/-- One upstream adapter call issued by the manager. -/
inductive HubEvent where
  | sub (node : Nat) (channel : Str)
  | unsub (node : Nat) (channel : Str)
deriving DecidableEq, Repr

/-- `register_to_hub_channel`: `adapter.subscribe(channel)` on every attached
adapter, in attachment order. -/
def allSub (n : Nat) (channel : Str) : List HubEvent :=
  (List.range n).map (fun i => HubEvent.sub i channel)

/-- `unregister_from_hub_channel`: `adapter.unsubscribe(channel)` on every
attached adapter, in attachment order. -/
def allUnsub (n : Nat) (channel : Str) : List HubEvent :=
  (List.range n).map (fun i => HubEvent.unsub i channel)

/-- Model of `HubManager::register_to_channel` over `n` attached adapters:
subscribe the fresh user in the channel map, record the binding in the user
map, and when the subscriber count of the channel became 1, issue
`adapter.subscribe` on every adapter.  Returns (state, receiver, events);
the receiver is the (user id, broadcast id) pair handed back to the caller. -/
def HubManager.register_to_channel (n : Nat) (s : HubManagerSt) (channel : Str) :
    HubManagerSt × (Nat × Nat) × List HubEvent :=
  let r := HubChannels.subscribe_user s.entries channel s.nextUser s.nextSender
  let entries2 := r.1
  let users2 := HubUsers.subscribe_user s.users channel s.nextUser
  let created := (s.entries.lookup channel).isNone
  let events :=
    if HubChannels.get_number_subscribers entries2 channel = 1 then allSub n channel else []
  ({ entries := entries2, users := users2, nextUser := s.nextUser + 1,
     nextSender := if created then s.nextSender + 1 else s.nextSender },
   r.2, events)

/-- Model of `HubManager::unregister_from_channel` over `n` attached adapters:
remove the user from the channel map and the user map, and when the channel is
empty afterwards (also when it never existed), issue `adapter.unsubscribe` on
every adapter. -/
def HubManager.unregister_from_channel (n : Nat) (s : HubManagerSt) (channel : Str)
    (userId : Nat) : HubManagerSt × List HubEvent :=
  let entries2 := HubChannels.unsubscribe_user s.entries channel userId
  let users2 := HubUsers.unsubscribe_user s.users channel userId
  let events := if HubChannels.is_empty entries2 channel then allUnsub n channel else []
  ({ s with entries := entries2, users := users2 }, events)

/-- A call into the hub manager's subscription API. -/
inductive HubOp where
  | register (channel : Str)
  | unregister (channel : Str) (userId : Nat)
deriving DecidableEq, Repr

/-- One API call with its emitted upstream events. -/
def HubManager.stepOp (n : Nat) (s : HubManagerSt) : HubOp → HubManagerSt × List HubEvent
  | .register c =>
    let r := HubManager.register_to_channel n s c
    (r.1, r.2.2)
  | .unregister c uid =>
    HubManager.unregister_from_channel n s c uid

/-- A finite sequence of API calls with the concatenated upstream events. -/
def HubManager.runOps (n : Nat) (s : HubManagerSt) : List HubOp → HubManagerSt × List HubEvent
  | [] => (s, [])
  | op :: ops =>
    let r := HubManager.stepOp n s op
    let r2 := HubManager.runOps n r.1 ops
    (r2.1, r.2 ++ r2.2)

/-- Spec-side per-step events (written from the claim and its amendment):
`subscribe` on every adapter exactly when the topic's subscriber count is 0
before a register (the 0 to 1 transition); `unsubscribe` on every adapter
exactly when the topic has no subscribers (or no entry) after an unregister. -/
def specStepEvents (n : Nat) (s : HubManagerSt) : HubOp → List HubEvent
  | .register c =>
    if HubChannels.get_number_subscribers s.entries c = 0 then allSub n c else []
  | .unregister c uid =>
    if HubChannels.get_number_subscribers
        (HubManager.stepOp n s (.unregister c uid)).1.entries c = 0
    then allUnsub n c else []

/-- Spec-side events of a run. -/
def specRunEvents (n : Nat) (s : HubManagerSt) : List HubOp → List HubEvent
  | [] => []
  | op :: ops =>
    specStepEvents n s op ++ specRunEvents n (HubManager.stepOp n s op).1 ops

/-- Well-formedness: every subscriber id stored in the channel map is below
the `Uuid` freshness counter (true of every reachable state). -/
def wfSt (s : HubManagerSt) : Prop :=
  ∀ e ∈ s.entries, ∀ u ∈ e.2.subscribers, u < s.nextUser

/-- Dispatcher model (`HubManager::start`): a message for `channel` is sent on
the broadcast currently stored in the channel map, if any; a receiver obtained
from `register_to_channel` observes it iff its broadcast id matches. -/
def HubManager.dispatchTarget (s : HubManagerSt) (channel : Str) : Option Nat :=
  HubChannels.get_sender s.entries channel

/-! ### WebSocket envelope codec (websocket/message.rs with serde_json) -/

/-- Model of the `WsMessage` envelope.  Channel names and payloads are carried
as raw strings; serde's derived `Deserialize` does not re-validate them. -/
inductive WsMessage where
  | Subscribe (channel : Str)
  | Unsubscribe (channel : Str)
  | ListChannelsReq
  | ListChannelsResponse (channels : List Str)
  | Data (channel : Str) (data : Str)
deriving DecidableEq, Repr

/-- Opening brace char (0x7B). -/
def lbrace : Char := Char.ofNat 0x7B

/-- Closing brace char (0x7D). -/
def rbrace : Char := Char.ofNat 0x7D

/-- Lowercase hex digit. -/
def hexDigit (n : Nat) : Char :=
  if n < 10 then Char.ofNat (48 + n) else Char.ofNat (87 + n)

/-- serde_json string escaping of one char: quote and backslash are escaped,
control chars below 0x20 take their short escape or `\u00XX`; everything else
(non-ASCII included) is emitted verbatim. -/
def escapeChar (c : Char) : Str :=
  if c = '"' then ['\\', '"']
  else if c = '\\' then ['\\', '\\']
  else if c.toNat = 0x08 then ['\\', 'b']
  else if c.toNat = 0x09 then ['\\', 't']
  else if c.toNat = 0x0A then ['\\', 'n']
  else if c.toNat = 0x0C then ['\\', 'f']
  else if c.toNat = 0x0D then ['\\', 'r']
  else if c.toNat < 0x20 then
    ['\\', 'u', '0', '0', hexDigit (c.toNat / 16), hexDigit (c.toNat % 16)]
  else [c]

/-- JSON string literal of `s`. -/
def renderString (s : Str) : Str :=
  '"' :: (s.flatMap escapeChar) ++ ['"']

/-- Comma-separated JSON string literals. -/
def commaJoin : List Str → Str
  | [] => []
  | x :: xs => renderString x ++ (if xs.isEmpty then [] else ',' :: commaJoin xs)

/-- JSON array of string literals. -/
def renderStrArray (xs : List Str) : Str :=
  '[' :: commaJoin xs ++ [']']

/-- Model of `WsMessage::to_string` (`serde_json::to_string` on the derived
`Serialize`).  Modelled from the spec: serde_json is an out-of-scope
collaborator; spec sections 4.4 and 6 fix the exact on-wire forms
(externally tagged, e.g. a Subscribe object, a bare string for
ListChannelsReq, arrays for the response and for Data). -/
def WsMessage.to_string : WsMessage → Str
  | .Subscribe c =>
    lbrace :: renderString "Subscribe".toList ++ ':' :: renderString c ++ [rbrace]
  | .Unsubscribe c =>
    lbrace :: renderString "Unsubscribe".toList ++ ':' :: renderString c ++ [rbrace]
  | .ListChannelsReq => renderString "ListChannelsReq".toList
  | .ListChannelsResponse cs =>
    lbrace :: renderString "ListChannelsResponse".toList ++ ':' :: renderStrArray cs ++ [rbrace]
  | .Data c d =>
    lbrace :: renderString "Data".toList ++
      ':' :: '[' :: (renderString c ++ ',' :: renderString d) ++ [']', rbrace]

/-- JSON insignificant whitespace. -/
def jsonWs (c : Char) : Bool :=
  c = ' ' || c.toNat = 0x09 || c.toNat = 0x0A || c.toNat = 0x0D

/-- Skip insignificant whitespace. -/
def skipJsonWs (s : Str) : Str := s.dropWhile jsonWs

/-- Hex digit value. -/
def hexVal (c : Char) : Option Nat :=
  if 48 ≤ c.toNat ∧ c.toNat ≤ 57 then some (c.toNat - 48)
  else if 97 ≤ c.toNat ∧ c.toNat ≤ 102 then some (c.toNat - 87)
  else if 65 ≤ c.toNat ∧ c.toNat ≤ 70 then some (c.toNat - 55)
  else none

/-- JSON string literal body (after the opening quote): unescape until the
closing quote; raw control chars are rejected as serde_json does.  `\uXXXX`
surrogate pairs are not reassembled (no rendered output contains them). -/
def parseStringBody : Str → Option (Str × Str)
  | [] => none
  | c :: rest =>
    if c = '"' then some ([], rest)
    else if c = '\\' then
      match rest with
      | [] => none
      | e :: rest2 =>
        if e = '"' then (parseStringBody rest2).map (fun r => ('"' :: r.1, r.2))
        else if e = '\\' then (parseStringBody rest2).map (fun r => ('\\' :: r.1, r.2))
        else if e = '/' then (parseStringBody rest2).map (fun r => ('/' :: r.1, r.2))
        else if e = 'b' then (parseStringBody rest2).map (fun r => (Char.ofNat 0x08 :: r.1, r.2))
        else if e = 'f' then (parseStringBody rest2).map (fun r => (Char.ofNat 0x0C :: r.1, r.2))
        else if e = 'n' then (parseStringBody rest2).map (fun r => ('\n' :: r.1, r.2))
        else if e = 'r' then (parseStringBody rest2).map (fun r => ('\r' :: r.1, r.2))
        else if e = 't' then (parseStringBody rest2).map (fun r => ('\t' :: r.1, r.2))
        else if e = 'u' then
          match rest2 with
          | h1 :: h2 :: h3 :: h4 :: rest3 =>
            match hexVal h1, hexVal h2, hexVal h3, hexVal h4 with
            | some a, some b, some c2, some d =>
              let code := ((a * 16 + b) * 16 + c2) * 16 + d
              if code < 0xD800 then
                (parseStringBody rest3).map (fun r => (Char.ofNat code :: r.1, r.2))
              else none
            | _, _, _, _ => none
          | _ => none
        else none
    else if c.toNat < 0x20 then none
    else (parseStringBody rest).map (fun r => (c :: r.1, r.2))

/-- JSON string literal (leading whitespace allowed). -/
def parseString (s : Str) : Option (Str × Str) :=
  match skipJsonWs s with
  | '"' :: rest => parseStringBody rest
  | _ => none

/-- Elements of a non-empty JSON array of strings, up to and including the
closing bracket; `fuel` bounds the number of elements. -/
def parseStrElems : Nat → Str → Option (List Str × Str)
  | 0, _ => none
  | fuel + 1, s =>
    match parseString s with
    | none => none
    | some (x, rest) =>
      match skipJsonWs rest with
      | ',' :: rest2 => (parseStrElems fuel rest2).map (fun r => (x :: r.1, r.2))
      | ']' :: rest2 => some ([x], rest2)
      | _ => none

/-- JSON array of strings. -/
def parseStrArray (fuel : Nat) (s : Str) : Option (List Str × Str) :=
  match skipJsonWs s with
  | '[' :: rest =>
    match skipJsonWs rest with
    | ']' :: rest2 => some ([], rest2)
    | _ => parseStrElems fuel rest
  | _ => none

/-- End of an enum object: the closing brace followed by nothing but
whitespace (serde_json's `from_str` rejects trailing content). -/
def closesObject (s : Str) : Bool :=
  match skipJsonWs s with
  | c :: r => c = rbrace && (skipJsonWs r).isEmpty
  | [] => false

/-- Decoder stage for the newtype variants `Subscribe`/`Unsubscribe`: a JSON
string payload, then the closing brace. -/
def wsParseStringPayload (mk : Str → WsMessage) (r2 : Str) : Option WsMessage :=
  match parseString r2 with
  | some (ch, r3) => if closesObject r3 then some (mk ch) else none
  | none => none

/-- Decoder stage for `ListChannelsResponse`: a JSON array of strings, then
the closing brace. -/
def wsParseListResp (fuel : Nat) (r2 : Str) : Option WsMessage :=
  match parseStrArray fuel r2 with
  | some (chs, r3) => if closesObject r3 then some (.ListChannelsResponse chs) else none
  | none => none

/-- Decoder stage for the tuple variant `Data`: a two-element array of
strings, then the closing brace. -/
def wsParseData (r2 : Str) : Option WsMessage :=
  match skipJsonWs r2 with
  | '[' :: r3 =>
    match parseString r3 with
    | some (ch, r4) =>
      match skipJsonWs r4 with
      | ',' :: r5 =>
        match parseString r5 with
        | some (d, r6) =>
          match skipJsonWs r6 with
          | ']' :: r7 => if closesObject r7 then some (.Data ch d) else none
          | _ => none
        | none => none
      | _ => none
    | none => none
  | _ => none

/-- Decoder stage dispatching on the single object key (the variant tag);
an unknown key is an error, as in serde's derived deserializer. -/
def wsDispatchKey (fuel : Nat) (key : Str) (r2 : Str) : Option WsMessage :=
  if key = "Subscribe".toList then wsParseStringPayload WsMessage.Subscribe r2
  else if key = "Unsubscribe".toList then wsParseStringPayload WsMessage.Unsubscribe r2
  else if key = "ListChannelsResponse".toList then wsParseListResp fuel r2
  else if key = "Data".toList then wsParseData r2
  else none

/-- Model of `TryFrom<String> for WsMessage` (`serde_json::from_str` driving
the derived externally-tagged `Deserialize`): a bare string must name the unit
variant `ListChannelsReq`; an object must hold exactly one known variant key
with the variant's payload shape; anything else is an error (collapsed to
`none`; the source maps the serde error to a `String`).  Modelled from the
spec: serde_json is an out-of-scope collaborator; spec sections 4.4 and 6 fix
these envelope forms. -/
def WsMessage.try_from (s : Str) : Option WsMessage :=
  match skipJsonWs s with
  | [] => none
  | c :: rest =>
    if c = '"' then
      match parseStringBody rest with
      | some (name, rest2) =>
        if name = "ListChannelsReq".toList ∧ (skipJsonWs rest2).isEmpty then
          some .ListChannelsReq
        else none
      | none => none
    else if c = lbrace then
      match parseString rest with
      | none => none
      | some (key, r1) =>
        match skipJsonWs r1 with
        | ':' :: r2 => wsDispatchKey s.length key r2
        | _ => none
    else none

/-! ### WebSocket server (websocket/server.rs) -/

/-- Per-topic peer map of the server: peer address to outbound queue handle
(both modelled as numbers; the queue handle is the `UnboundedSender`). -/
abbrev PeerMap := List (Nat × Nat)

/-- Model of `handle_ws_data`: under the channel-map lock, get-or-create the
topic entry, then push a `Data(channel, data)` envelope (as its JSON text)
onto the outbound queue of every registered peer whose address differs from
the publisher's.  Returns the new channel map and the (address, envelope)
pushes. -/
def handle_ws_data (channelMap : List (Str × PeerMap)) (channel : Str) (data : Str)
    (addr : Nat) : List (Str × PeerMap) × List (Nat × WsMessage) :=
  let cm2 :=
    match channelMap.lookup channel with
    | some _ => channelMap
    | none => channelMap ++ [(channel, [])]
  match cm2.lookup channel with
  | some subscribers =>
    (cm2, subscribers.filterMap
      (fun peer => if peer.1 ≠ addr then some (peer.1, WsMessage.Data channel data) else none))
  | none => (cm2, [])

/-- Peers registered under a topic (empty when the topic has no entry). -/
def peersOf (channelMap : List (Str × PeerMap)) (channel : Str) : PeerMap :=
  (channelMap.lookup channel).getD []

/-! ## Theorems -/

theorem char_toNat_inj {c d : Char} (h : c.toNat = d.toNat) : c = d := by
  apply Char.ext
  exact UInt32.ext h

theorem char_eq_iff_toNat {c d : Char} : c = d ↔ c.toNat = d.toNat :=
  ⟨fun h => h ▸ rfl, char_toNat_inj⟩

theorem toNat_ofNat_valid (n : Nat) (h : n < 0xD800) : (Char.ofNat n).toNat = n := by
  unfold Char.ofNat
  rw [dif_pos (Or.inl h)]
  simp [Char.ofNatAux, Char.toNat, UInt32.toNat, BitVec.toNat_ofNatLt]

theorem asciiLower_toNat_of_upper {c : Char} (h : 65 ≤ c.toNat ∧ c.toNat ≤ 90) :
    (asciiLower c).toNat = c.toNat + 32 := by
  unfold asciiLower
  rw [if_pos (by simp [h.1, h.2])]
  exact toNat_ofNat_valid _ (by omega)

theorem asciiLower_eq_self {c : Char} (h : ¬(65 ≤ c.toNat ∧ c.toNat ≤ 90)) :
    asciiLower c = c := by
  unfold asciiLower
  rw [if_neg (by simpa using h)]

theorem rustIsAlphanumeric_asciiLower (c : Char) :
    rustIsAlphanumeric (asciiLower c) = rustIsAlphanumeric c := by
  by_cases h : 65 ≤ c.toNat ∧ c.toNat ≤ 90
  · have h2 := asciiLower_toNat_of_upper h
    apply Bool.eq_iff_iff.mpr
    simp only [rustIsAlphanumeric, h2, Bool.or_eq_true, Bool.and_eq_true, decide_eq_true_eq]
    omega
  · rw [asciiLower_eq_self h]

theorem rustIsWhitespace_asciiLower (c : Char) :
    rustIsWhitespace (asciiLower c) = rustIsWhitespace c := by
  by_cases h : 65 ≤ c.toNat ∧ c.toNat ≤ 90
  · have h2 := asciiLower_toNat_of_upper h
    apply Bool.eq_iff_iff.mpr
    simp only [rustIsWhitespace, h2, Bool.or_eq_true, Bool.and_eq_true, decide_eq_true_eq]
    omega
  · rw [asciiLower_eq_self h]

theorem asciiLower_idem (c : Char) : asciiLower (asciiLower c) = asciiLower c := by
  by_cases h : 65 ≤ c.toNat ∧ c.toNat ≤ 90
  · have h2 := asciiLower_toNat_of_upper h
    apply asciiLower_eq_self
    omega
  · rw [asciiLower_eq_self h, asciiLower_eq_self h]

theorem alnum_not_ws {c : Char} (h : rustIsAlphanumeric c = true) :
    rustIsWhitespace c = false := by
  simp only [rustIsAlphanumeric, Bool.or_eq_true, Bool.and_eq_true, decide_eq_true_eq] at h
  simp only [rustIsWhitespace, Bool.or_eq_false_iff, Bool.and_eq_false_iff,
    decide_eq_false_iff_not]
  omega

theorem hubTrimPred_eq_ws (c : Char) : hubTrimPred c = rustIsWhitespace c := by
  unfold hubTrimPred
  cases h : rustIsWhitespace c
  · simp only [Bool.false_or]
    simp only [rustIsWhitespace, Bool.or_eq_false_iff, Bool.and_eq_false_iff,
      decide_eq_false_iff_not] at h
    have h10 : ¬(c = '\n') := fun hc => by
      rw [char_eq_iff_toNat, show ('\n').toNat = 10 from rfl] at hc; omega
    have h13 : ¬(c = '\r') := fun hc => by
      rw [char_eq_iff_toNat, show ('\r').toNat = 13 from rfl] at hc; omega
    simp [h10, h13]
  · simp

theorem serialKeepPred_eq_not_ws (c : Char) : serialKeepPred c = !rustIsWhitespace c := by
  unfold serialKeepPred
  congr 1
  exact hubTrimPred_eq_ws c

/-! Trim helper lemmas. -/

theorem dropWhile_eq_self_of_not {p : Char → Bool} {s : Str}
    (h : ∀ c ∈ s, p c = false) : s.dropWhile p = s := by
  cases s with
  | nil => rfl
  | cons c rest => simp [List.dropWhile, h c (by simp)]

theorem dropWhile_eq_nil_of_all {p : Char → Bool} {s : Str}
    (h : ∀ c ∈ s, p c = true) : s.dropWhile p = [] := by
  induction s with
  | nil => rfl
  | cons c rest ih =>
    simp only [List.dropWhile, h c (by simp)]
    exact ih (fun d hd => h d (by simp [hd]))

theorem dropWhile_append_of_all {p : Char → Bool} {u v : Str}
    (h : ∀ c ∈ u, p c = true) : (u ++ v).dropWhile p = v.dropWhile p := by
  induction u with
  | nil => rfl
  | cons c rest ih =>
    simp only [List.cons_append, List.dropWhile, h c (by simp)]
    exact ih (fun d hd => h d (by simp [hd]))

theorem rustTrimMatches_eq_self_of_not {p : Char → Bool} {s : Str}
    (h : ∀ c ∈ s, p c = false) : rustTrimMatches p s = s := by
  unfold rustTrimMatches
  rw [dropWhile_eq_self_of_not h, dropWhile_eq_self_of_not (by simpa using h),
    List.reverse_reverse]

theorem rustTrimMatches_append_of_all {p : Char → Bool} {y : Str} (x : Str)
    (h : ∀ c ∈ y, p c = true) :
    rustTrimMatches p (x ++ y) = rustTrimMatches p x := by
  induction x with
  | nil =>
    unfold rustTrimMatches
    rw [List.nil_append, dropWhile_eq_nil_of_all h]
    rfl
  | cons c rest ih =>
    unfold rustTrimMatches
    by_cases hc : p c = true
    · rw [List.cons_append, List.dropWhile_cons_of_pos hc, List.dropWhile_cons_of_pos hc]
      unfold rustTrimMatches at ih
      exact ih
    · rw [List.cons_append, List.dropWhile_cons_of_neg hc, List.dropWhile_cons_of_neg hc]
      congr 1
      rw [List.reverse_cons, List.reverse_cons, List.reverse_append, List.append_assoc]
      exact dropWhile_append_of_all (by simpa using h)

theorem rustTrimMatches_decomp (p : Char → Bool) (s : Str) :
    ∃ a b, s = a ++ rustTrimMatches p s ++ b ∧ (∀ c ∈ a, p c = true) ∧
      (∀ c ∈ b, p c = true) := by
  refine ⟨s.takeWhile p, (((s.dropWhile p).reverse).takeWhile p).reverse, ?_, ?_, ?_⟩
  · have hd : s.dropWhile p =
        rustTrimMatches p s ++ ((s.dropWhile p).reverse.takeWhile p).reverse := by
      unfold rustTrimMatches
      conv_lhs => rw [← List.reverse_reverse (s.dropWhile p)]
      conv_lhs =>
        rw [← List.takeWhile_append_dropWhile (p := p) (l := (s.dropWhile p).reverse)]
      rw [List.reverse_append]
    conv_lhs => rw [← List.takeWhile_append_dropWhile (p := p) (l := s), hd]
    rw [List.append_assoc]
  · intro c hc
    exact List.mem_takeWhile_imp hc
  · intro c hc
    rw [List.mem_reverse] at hc
    exact List.mem_takeWhile_imp hc

/-! ### Claim C1 -/

/-- Claim C1, as stated, is false: the claim predicts failure on the empty
string (trimmed remainder empty), but `HubChannelName::try_from` has no
non-emptiness check and returns `Ok("")`. -/
theorem claim1_counterexample :
    HubChannelName.try_from [] = .ok [] ∧ ¬ c1SpecAccepts [] := by
  constructor
  · rfl
  · intro h
    exact h.1 rfl

theorem hub_try_from_ok_iff (s t : Str) :
    HubChannelName.try_from s = .ok t ↔
      ((∀ c ∈ rustTrimMatches hubTrimPred s,
          rustIsAlphanumeric c = true ∨ c = '_' ∨
            (rustIsWhitespace c = true ∧ c ≠ ' ' ∧ c ≠ '\n' ∧ c ≠ '\r')) ∧
        t = (rustTrimMatches hubTrimPred s).map asciiLower) := by
  unfold HubChannelName.try_from
  by_cases h1 : ((rustTrimMatches hubTrimPred s).contains '\n'
      || (rustTrimMatches hubTrimPred s).contains '\r') = true
  · rw [if_pos h1]
    simp only [Bool.or_eq_true, List.elem_iff] at h1
    constructor
    · intro h; exact absurd h (by simp)
    · rintro ⟨hchars, -⟩
      exfalso
      rcases h1 with h1 | h1
      · rcases hchars '\n' h1 with h | h | h
        · exact absurd h (by decide)
        · exact absurd h (by decide)
        · exact h.2.2.1 rfl
      · rcases hchars '\r' h1 with h | h | h
        · exact absurd h (by decide)
        · exact absurd h (by decide)
        · exact h.2.2.2 rfl
  · rw [if_neg h1]
    by_cases h2 : ((rustTrimMatches hubTrimPred s).any
        (fun c => !(rustIsAlphanumeric c || c == '_' || rustIsWhitespace c))) = true
    · rw [if_pos h2]
      rw [List.any_eq_true] at h2
      obtain ⟨c, hc, hbad⟩ := h2
      simp only [Bool.not_eq_true', Bool.or_eq_false_iff, beq_eq_false_iff_ne] at hbad
      constructor
      · intro h; exact absurd h (by simp)
      · rintro ⟨hchars, -⟩
        exfalso
        rcases hchars c hc with h | h | h
        · rw [hbad.1.1] at h; exact Bool.false_ne_true h
        · exact hbad.1.2 h
        · rw [hbad.2] at h; exact Bool.false_ne_true h.1
    · rw [if_neg h2]
      by_cases h3 : ((rustTrimMatches hubTrimPred s).contains ' ') = true
      · rw [if_pos h3]
        rw [List.elem_iff] at h3
        constructor
        · intro h; exact absurd h (by simp)
        · rintro ⟨hchars, -⟩
          exfalso
          rcases hchars ' ' h3 with h | h | h
          · exact absurd h (by decide)
          · exact absurd h (by decide)
          · exact h.2.1 rfl
      · rw [if_neg h3]
        simp only [Bool.or_eq_true, not_or, List.elem_iff] at h1 h3
        rw [List.any_eq_true] at h2
        push_neg at h2
        constructor
        · intro h
          have ht : t = (rustTrimMatches hubTrimPred s).map asciiLower := by
            cases h; rfl
          refine ⟨?_, ht⟩
          intro c hc
          have himp : rustIsAlphanumeric c = false → ¬ c = '_' → rustIsWhitespace c = true := by
            simpa using h2 c hc
          by_cases ha : rustIsAlphanumeric c = true
          · exact Or.inl ha
          · by_cases hu : c = '_'
            · exact Or.inr (Or.inl hu)
            · refine Or.inr (Or.inr ⟨himp (Bool.eq_false_iff.mpr ha) hu, ?_, ?_, ?_⟩)
              · intro hsp; exact h3 (hsp ▸ hc)
              · intro hnl; exact h1.1 (hnl ▸ hc)
              · intro hcr; exact h1.2 (hcr ▸ hc)
        · rintro ⟨hchars, ht⟩
          rw [ht]

/-- Claim C1 (amended): `HubChannelName::try_from s` succeeds iff every char
of the trimmed string is alphanumeric, underscore, or a whitespace char other
than space, newline and carriage return (so the empty string and internal
non-space whitespace such as tab are also accepted); on success the stored
form is the ASCII-lowercased trimmed string. -/
theorem claim1_amended (s t : Str) :
    HubChannelName.try_from s = .ok t ↔
      ((∀ c ∈ rustTrimMatches hubTrimPred s,
          rustIsAlphanumeric c = true ∨ c = '_' ∨
            (rustIsWhitespace c = true ∧ c ≠ ' ' ∧ c ≠ '\n' ∧ c ≠ '\r')) ∧
        t = (rustTrimMatches hubTrimPred s).map asciiLower) :=
  hub_try_from_ok_iff s t

/-! ### Claims C6 and C10 -/

theorem serial_name_eq_filter_of_hub_ok {s t : Str}
    (h : HubChannelName.try_from s = .ok t) :
    ((s.map asciiLower).filter serialKeepPred) = t.filter serialKeepPred := by
  obtain ⟨hchars, ht⟩ := (hub_try_from_ok_iff s t).mp h
  obtain ⟨a, b, hs, ha, hb⟩ := rustTrimMatches_decomp hubTrimPred s
  have hdrop : ∀ u : Str, (∀ c ∈ u, hubTrimPred c = true) →
      (u.map asciiLower).filter serialKeepPred = [] := by
    intro u hu
    apply List.filter_eq_nil_iff.mpr
    intro c hc
    rw [List.mem_map] at hc
    obtain ⟨c0, hc0, rfl⟩ := hc
    rw [serialKeepPred_eq_not_ws, rustIsWhitespace_asciiLower]
    have hw : rustIsWhitespace c0 = true := by
      rw [← hubTrimPred_eq_ws]; exact hu c0 hc0
    simp [hw]
  rw [hs, List.map_append, List.map_append, List.filter_append, List.filter_append,
    hdrop a ha, hdrop b hb, List.nil_append, List.append_nil, ht]

theorem serial_accepts_of_hub_ok {s t : Str} (h : HubChannelName.try_from s = .ok t) :
    SerialChannelName.try_from s = .ok (t.filter serialKeepPred) := by
  obtain ⟨hchars, ht⟩ := (hub_try_from_ok_iff s t).mp h
  unfold SerialChannelName.try_from
  rw [serial_name_eq_filter_of_hub_ok h]
  rw [if_pos ?hall]
  case hall =>
    apply List.all_eq_true.mpr
    intro c hc
    rw [List.mem_filter] at hc
    obtain ⟨hct, hckeep⟩ := hc
    rw [ht, List.mem_map] at hct
    obtain ⟨c0, hc0, rfl⟩ := hct
    rcases hchars c0 hc0 with hA | hU | hW
    · simp [rustIsAlphanumeric_asciiLower, hA]
    · subst hU; decide
    · exfalso
      rw [serialKeepPred_eq_not_ws, rustIsWhitespace_asciiLower, hW.1] at hckeep
      exact Bool.false_ne_true hckeep

/-- Claim C6, as stated, is false: the two validators do not accept the same
strings.  On input `"a b"` the serial validator filters the internal space out
and accepts (producing `"ab"`), while the hub validator rejects internal
spaces. -/
theorem claim6_counterexample :
    (SerialChannelName.try_from ("a b".toList)).toOption = some ("ab".toList) ∧
    (HubChannelName.try_from ("a b".toList)).toOption = none := by
  decide

/-- Claim C6 (amended): the serial validator accepts a superset of the hub
validator.  Whenever `HubChannelName::try_from` accepts `s` with normalized
name `t`, `SerialChannelName::try_from` also accepts `s`, producing `t` with
its remaining whitespace removed (equal to `t` when `t` has none); the
converse fails because the serial validator deletes internal whitespace
instead of rejecting it.  The serial-specific addition is the on-wire
`##name##` wrapping (`SerialChannelName::tag`). -/
theorem claim6_amended (s t : Str) (h : HubChannelName.try_from s = .ok t) :
    SerialChannelName.try_from s = .ok (t.filter serialKeepPred) ∧
    SerialChannelName.tag t = '#' :: '#' :: t ++ ['#', '#'] :=
  ⟨serial_accepts_of_hub_ok h, rfl⟩

/-- Claim C6 witness at a concrete input. -/
theorem claim6_witness :
    (HubChannelName.try_from (" Chan_1".toList) = .ok ("chan_1".toList)) ∧
    SerialChannelName.try_from (" Chan_1".toList) =
      .ok (("chan_1".toList).filter serialKeepPred) :=
  ⟨rfl, (claim6_amended (" Chan_1".toList) ("chan_1".toList) rfl).1⟩

theorem hub_accepts_of_serial_ok {s t : Str} (h : SerialChannelName.try_from s = .ok t) :
    HubChannelName.try_from t = .ok t := by
  have hchars : ∀ c ∈ t, (rustIsAlphanumeric c || c == '_') = true := by
    unfold SerialChannelName.try_from at h
    by_cases hall : ((s.map asciiLower).filter serialKeepPred).all
        (fun c => rustIsAlphanumeric c || c == '_') = true
    · rw [if_pos hall] at h
      cases h
      exact List.all_eq_true.mp hall
    · rw [if_neg hall] at h
      exact absurd h (by simp)
  have hnws : ∀ c ∈ t, hubTrimPred c = false := by
    intro c hc
    rw [hubTrimPred_eq_ws]
    rcases Bool.or_eq_true _ _ |>.mp (hchars c hc) with hA | hU
    · exact alnum_not_ws hA
    · rw [beq_iff_eq] at hU; subst hU; decide
  unfold HubChannelName.try_from
  rw [rustTrimMatches_eq_self_of_not hnws]
  have hn : '\n' ∉ t := fun hmem => absurd (hchars '\n' hmem) (by decide)
  have hr : '\r' ∉ t := fun hmem => absurd (hchars '\r' hmem) (by decide)
  have hsp : ' ' ∉ t := fun hmem => absurd (hchars ' ' hmem) (by decide)
  rw [if_neg (by simp [hn, hr])]
  rw [if_neg ?hany]
  case hany =>
    intro hany
    rw [List.any_eq_true] at hany
    obtain ⟨c, hc, hbad⟩ := hany
    have hcc : (rustIsAlphanumeric c || c == '_' || rustIsWhitespace c) = true := by
      rcases Bool.or_eq_true _ _ |>.mp (hchars c hc) with hA | hB
      · simp [hA]
      · simp [hB]
    rw [hcc] at hbad
    simp at hbad
  rw [if_neg (by simp [hsp])]
  congr 1
  have hlow : ∀ c ∈ t, asciiLower c = c := by
    unfold SerialChannelName.try_from at h
    by_cases hall : ((s.map asciiLower).filter serialKeepPred).all
        (fun c => rustIsAlphanumeric c || c == '_') = true
    · rw [if_pos hall] at h
      cases h
      intro c hc
      rw [List.mem_filter, List.mem_map] at hc
      obtain ⟨⟨c0, _, rfl⟩, _⟩ := hc
      exact asciiLower_idem c0
    · rw [if_neg hall] at h
      exact absurd h (by simp)
  calc t.map asciiLower = t.map id := List.map_congr_left (fun c hc => hlow c hc)
  _ = t := List.map_id t

theorem serial_accepts_hub_result {s t : Str} (h : HubChannelName.try_from s = .ok t) :
    SerialChannelName.try_from t = .ok (t.filter serialKeepPred) := by
  obtain ⟨hchars, ht⟩ := (hub_try_from_ok_iff s t).mp h
  unfold SerialChannelName.try_from
  have hmaplow : t.map asciiLower = t := by
    rw [ht, List.map_map]
    exact List.map_congr_left (fun c _ => asciiLower_idem c)
  rw [hmaplow]
  rw [if_pos ?hall]
  case hall =>
    apply List.all_eq_true.mpr
    intro c hc
    rw [List.mem_filter] at hc
    obtain ⟨hct, hkeep⟩ := hc
    rw [ht, List.mem_map] at hct
    obtain ⟨c0, hc0, rfl⟩ := hct
    rcases hchars c0 hc0 with hA | hU | hW
    · simp [rustIsAlphanumeric_asciiLower, hA]
    · subst hU; decide
    · exfalso
      rw [serialKeepPred_eq_not_ws, rustIsWhitespace_asciiLower, hW.1] at hkeep
      exact Bool.false_ne_true hkeep

/-- Claim C10: the `From` conversions between the two name types never hit
their internal `unwrap` panic: every string held by a constructed
`SerialChannelName` is accepted by `HubChannelName::try_from`, and every
string held by a constructed `HubChannelName` is accepted by
`SerialChannelName::try_from`. -/
theorem claim10 (s t : Str) :
    (SerialChannelName.try_from s = .ok t →
      (HubChannelName.try_from t).toOption.isSome = true) ∧
    (HubChannelName.try_from s = .ok t →
      (SerialChannelName.try_from t).toOption.isSome = true) := by
  constructor
  · intro h
    rw [hub_accepts_of_serial_ok h]
    rfl
  · intro h
    rw [serial_accepts_hub_result h]
    rfl

/-- Claim C10 witness at concrete inputs, one per direction. -/
theorem claim10_witness :
    ((SerialChannelName.try_from ("Ab 1".toList) = .ok ("ab1".toList)) ∧
      (HubChannelName.try_from ("ab1".toList)).toOption.isSome = true) ∧
    ((HubChannelName.try_from ("Ab_1".toList) = .ok ("ab_1".toList)) ∧
      (SerialChannelName.try_from ("ab_1".toList)).toOption.isSome = true) :=
  ⟨⟨rfl, (claim10 ("Ab 1".toList) ("ab1".toList)).1 rfl⟩,
   ⟨rfl, (claim10 ("Ab_1".toList) ("ab_1".toList)).2 rfl⟩⟩

/-! ### Association-list lemmas for the hub manager and the WS server -/

theorem lookup_mem {α β : Type} [BEq α] [LawfulBEq α] {l : List (α × β)} {k : α} {v : β}
    (h : l.lookup k = some v) : (k, v) ∈ l := by
  induction l with
  | nil => cases h
  | cons e rest ih =>
    rw [show e = (e.1, e.2) from rfl, List.lookup_cons] at h
    cases hk : k == e.1 with
    | true =>
      rw [hk] at h
      have h2 : some e.2 = some v := h
      injection h2 with h3
      subst h3
      rw [eq_of_beq hk]
      exact List.mem_cons_self _ _
    | false =>
      rw [hk] at h
      exact List.mem_cons_of_mem _ (ih h)

theorem lookup_append_of_none {α β : Type} [BEq α] [LawfulBEq α] {l : List (α × β)} {k : α}
    (v : β) (h : l.lookup k = none) : (l ++ [(k, v)]).lookup k = some v := by
  induction l with
  | nil => simp [List.lookup_cons]
  | cons e rest ih =>
    rw [show e = (e.1, e.2) from rfl, List.lookup_cons] at h
    cases hk : k == e.1 with
    | true =>
      rw [hk] at h
      exact Option.noConfusion h
    | false =>
      rw [hk] at h
      rw [List.cons_append, show e = (e.1, e.2) from rfl, List.lookup_cons, hk]
      exact ih h

theorem lookup_updateEntry_self (m : List (Str × HubChannelInfo)) (k : Str)
    (f : HubChannelInfo → HubChannelInfo) :
    (updateEntry m k f).lookup k = (m.lookup k).map f := by
  induction m with
  | nil => rfl
  | cons e rest ih =>
    unfold updateEntry
    rw [List.map_cons]
    by_cases hk : e.1 = k
    · have hbeq : (k == e.1) = true := beq_iff_eq.mpr hk.symm
      rw [if_pos hk, List.lookup_cons, hbeq]
      rw [show e = (e.1, e.2) from rfl, List.lookup_cons, hbeq]
      rfl
    · have hbeq : (k == e.1) = false := by
        rw [beq_eq_false_iff_ne]
        exact fun hh => hk hh.symm
      rw [if_neg hk, show e = (e.1, e.2) from rfl, List.lookup_cons, hbeq,
        List.lookup_cons, hbeq]
      exact ih

theorem lookup_removeEntry_self (m : List (Str × HubChannelInfo)) (k : Str) :
    (removeEntry m k).lookup k = none := by
  induction m with
  | nil => rfl
  | cons e rest ih =>
    unfold removeEntry
    rw [List.filter_cons]
    by_cases hk : e.1 = k
    · rw [if_neg (by simp [hk])]
      exact ih
    · rw [if_pos (by simp [hk])]
      have hbeq : (k == e.1) = false := by
        rw [beq_eq_false_iff_ne]
        exact fun hh => hk hh.symm
      rw [show e = (e.1, e.2) from rfl, List.lookup_cons, hbeq]
      exact ih

theorem mem_insertUid {l : List Nat} {u v : Nat} (h : v ∈ insertUid l u) :
    v ∈ l ∨ v = u := by
  unfold insertUid at h
  by_cases hu : u ∈ l
  · rw [if_pos hu] at h; exact Or.inl h
  · rw [if_neg hu] at h
    rcases List.mem_append.mp h with h | h
    · exact Or.inl h
    · exact Or.inr (List.mem_singleton.mp h)

theorem is_empty_iff_count (m : List (Str × HubChannelInfo)) (c : Str) :
    HubChannels.is_empty m c = true ↔ HubChannels.get_number_subscribers m c = 0 := by
  unfold HubChannels.is_empty HubChannels.get_number_subscribers
  cases h : m.lookup c with
  | none => simp
  | some info => simp [List.isEmpty_iff, List.length_eq_zero]

/-! ### Claim C2 -/

theorem count_after_subscribe (m : List (Str × HubChannelInfo)) (c : Str) (u ns : Nat)
    (hfresh : ∀ info, m.lookup c = some info → u ∉ info.subscribers) :
    HubChannels.get_number_subscribers (HubChannels.subscribe_user m c u ns).1 c =
      HubChannels.get_number_subscribers m c + 1 := by
  unfold HubChannels.subscribe_user HubChannels.get_number_subscribers
  cases h : m.lookup c with
  | none =>
    simp only [h]
    rw [lookup_append_of_none _ h]
    rfl
  | some info =>
    simp only [h]
    rw [lookup_updateEntry_self, h]
    simp only [Option.map_some']
    unfold insertUid
    rw [if_neg (hfresh info h)]
    simp

theorem wf_step (n : Nat) (s : HubManagerSt) (op : HubOp) (h : wfSt s) :
    wfSt (HubManager.stepOp n s op).1 := by
  cases op with
  | register c =>
    have hmain : ∀ e ∈ (HubChannels.subscribe_user s.entries c s.nextUser s.nextSender).1,
        ∀ u ∈ e.2.subscribers, u < s.nextUser + 1 := by
      unfold HubChannels.subscribe_user
      cases hl : s.entries.lookup c with
      | none =>
        simp only [hl]
        intro e he u hu
        rcases List.mem_append.mp he with he | he
        · exact Nat.lt_succ_of_lt (h e he u hu)
        · rw [List.mem_singleton] at he
          subst he
          rw [List.mem_singleton.mp hu]
          exact Nat.lt_succ_self _
      | some info =>
        simp only [hl]
        intro e he u hu
        unfold updateEntry at he
        rw [List.mem_map] at he
        obtain ⟨e0, he0, rfl⟩ := he
        by_cases hk : e0.1 = c
        · rw [if_pos hk] at hu
          rcases mem_insertUid hu with hu | hu
          · exact Nat.lt_succ_of_lt (h e0 he0 u hu)
          · subst hu; exact Nat.lt_succ_self _
        · rw [if_neg hk] at hu
          exact Nat.lt_succ_of_lt (h e0 he0 u hu)
    intro e he u hu
    exact hmain e he u hu
  | unregister c uid =>
    intro e he u hu
    show u < s.nextUser
    have hmain : ∀ e2 ∈ HubChannels.unsubscribe_user s.entries c uid,
        ∀ u2 ∈ e2.2.subscribers, u2 < s.nextUser := by
      unfold HubChannels.unsubscribe_user
      cases hl : s.entries.lookup c with
      | none => simpa only [hl] using h
      | some info =>
        simp only [hl]
        intro e2 he2 u2 hu2
        have hmem2 : ∀ e3, e3 ∈ updateEntry s.entries c
            (fun _ => { info with
              subscribers := info.subscribers.filter (fun u3 => u3 ≠ uid) }) →
            ∀ u3 ∈ e3.2.subscribers, u3 < s.nextUser := by
          intro e3 he3 u3 hu3
          unfold updateEntry at he3
          rw [List.mem_map] at he3
          obtain ⟨e0, he0, rfl⟩ := he3
          by_cases hk : e0.1 = c
          · rw [if_pos hk] at hu3
            have : u3 ∈ info.subscribers := List.mem_of_mem_filter hu3
            exact h _ (lookup_mem hl) u3 this
          · rw [if_neg hk] at hu3
            exact h e0 he0 u3 hu3
        by_cases hemp : HubChannels.is_empty (updateEntry s.entries c
            (fun _ => { info with
              subscribers := info.subscribers.filter (fun u3 => u3 ≠ uid) })) c = true
        · rw [if_pos hemp] at he2
          unfold removeEntry at he2
          exact hmem2 e2 (List.mem_of_mem_filter he2) u2 hu2
        · rw [if_neg hemp] at he2
          exact hmem2 e2 he2 u2 hu2
    exact hmain e he u hu

theorem stepOp_events (n : Nat) (s : HubManagerSt) (op : HubOp) (h : wfSt s) :
    (HubManager.stepOp n s op).2 = specStepEvents n s op := by
  cases op with
  | register c =>
    have hcount := count_after_subscribe s.entries c s.nextUser s.nextSender
      (fun info hinfo hmem => absurd (h _ (lookup_mem hinfo) _ hmem) (Nat.lt_irrefl _))
    simp only [HubManager.stepOp, HubManager.register_to_channel, specStepEvents]
    rw [hcount]
    by_cases h0 : HubChannels.get_number_subscribers s.entries c = 0
    · rw [if_pos (by omega), if_pos h0]
    · rw [if_neg (by omega), if_neg h0]
  | unregister c uid =>
    simp only [HubManager.stepOp, HubManager.unregister_from_channel, specStepEvents]
    by_cases he : HubChannels.is_empty (HubChannels.unsubscribe_user s.entries c uid) c = true
    · rw [if_pos he, if_pos ((is_empty_iff_count _ _).mp he)]
    · rw [if_neg he, if_neg (fun hcnt => he ((is_empty_iff_count _ _).mpr hcnt))]

theorem runOps_events (n : Nat) (ops : List HubOp) :
    ∀ s : HubManagerSt, wfSt s →
      (HubManager.runOps n s ops).2 = specRunEvents n s ops := by
  induction ops with
  | nil => intro s _; rfl
  | cons op ops ih =>
    intro s h
    simp only [HubManager.runOps, specRunEvents]
    rw [stepOp_events n s op h, ih _ (wf_step n s op h)]

/-- Claim C2, as stated, is false: an `unregister_from_channel` call for a
topic with no channel entry still fires `adapter.unsubscribe` on every
attached adapter (`HubChannels::is_empty` returns `true` for a missing
channel), though no 1-to-0 subscriber transition happened. -/
theorem claim2_counterexample :
    HubManager.initSt.entries.lookup ("t1".toList) = none ∧
    (HubManager.stepOp 1 HubManager.initSt (.unregister ("t1".toList) 0)).2 =
      [HubEvent.unsub 0 ("t1".toList)] := by
  constructor
  · rfl
  · rfl

/-- Claim C2 (amended): across every finite sequence of register/unregister
calls from the initial state, `adapter.subscribe(T)` fires on every attached
adapter exactly once per register call that finds T's subscriber count at 0
(the 0-to-1 transition), and `adapter.unsubscribe(T)` fires on every attached
adapter exactly once per unregister call after which T has no subscribers or
no entry — which covers every 1-to-0 transition, but also unregister calls
for a topic that has no channel entry. -/
theorem claim2_amended (n : Nat) (ops : List HubOp) :
    (HubManager.runOps n HubManager.initSt ops).2 =
      specRunEvents n HubManager.initSt ops :=
  runOps_events n ops HubManager.initSt (by intro e he; cases he)

/-! ### Claim C3 -/

theorem register_of_lookup_none (n : Nat) (s : HubManagerSt) (c : Str)
    (h : s.entries.lookup c = none) :
    (HubManager.register_to_channel n s c).1.entries =
        s.entries ++ [(c, { sender := s.nextSender, subscribers := [s.nextUser] })] ∧
    (HubManager.register_to_channel n s c).1.nextSender = s.nextSender + 1 ∧
    (HubManager.register_to_channel n s c).1.nextUser = s.nextUser + 1 ∧
    (HubManager.register_to_channel n s c).2.1 = (s.nextUser, s.nextSender) := by
  unfold HubManager.register_to_channel HubChannels.subscribe_user
  simp only [h]
  simp

theorem unregister_of_single (n : Nat) (s1 : HubManagerSt) (c : Str) (uid sid : Nat)
    (hlook : s1.entries.lookup c = some { sender := sid, subscribers := [uid] }) :
    (HubManager.unregister_from_channel n s1 c uid).1.entries.lookup c = none ∧
    (HubManager.unregister_from_channel n s1 c uid).1.nextSender = s1.nextSender ∧
    (HubManager.unregister_from_channel n s1 c uid).1.nextUser = s1.nextUser := by
  unfold HubManager.unregister_from_channel HubChannels.unsubscribe_user
  simp only [hlook]
  have hfil : List.filter (fun u => decide (u ≠ uid)) [uid] = [] := by simp
  have hemp : HubChannels.is_empty (updateEntry s1.entries c
      (fun _ => { sender := sid, subscribers := List.filter (fun u => decide (u ≠ uid)) [uid] }))
      c = true := by
    unfold HubChannels.is_empty
    rw [lookup_updateEntry_self, hlook]
    simp
  rw [if_pos hemp]
  refine ⟨lookup_removeEntry_self _ _, ?_, ?_⟩ <;> simp

/-- Claim C3: after `register_to_channel(T)` on a state without an entry for T
returns the receiver `(id, broadcast)`, an `unregister_from_channel(T, id)`
(T's only subscriber) removes T's entry from the channel map; a subsequent
`register_to_channel(T)` allocates a fresh broadcast, so the dispatcher then
sends T's messages on a broadcast different from the one held by the receiver
obtained before the removal, which therefore receives none of them. -/
theorem claim3 (n : Nat) (s : HubManagerSt) (c : Str)
    (r1 : HubManagerSt × (Nat × Nat) × List HubEvent)
    (r2 : HubManagerSt × List HubEvent)
    (r3 : HubManagerSt × (Nat × Nat) × List HubEvent)
    (h : s.entries.lookup c = none)
    (h1 : HubManager.register_to_channel n s c = r1)
    (h2 : HubManager.unregister_from_channel n r1.1 c r1.2.1.1 = r2)
    (h3 : HubManager.register_to_channel n r2.1 c = r3) :
    r2.1.entries.lookup c = none ∧
    HubManager.dispatchTarget r3.1 c = some r2.1.nextSender ∧
    r2.1.nextSender ≠ r1.2.1.2 := by
  subst h1 h2 h3
  obtain ⟨hent, hsend, huser, hrecv⟩ := register_of_lookup_none n s c h
  have hrecv1 : (HubManager.register_to_channel n s c).2.1.1 = s.nextUser := by
    rw [hrecv]
  have hrecv2 : (HubManager.register_to_channel n s c).2.1.2 = s.nextSender := by
    rw [hrecv]
  have hlook1 : (HubManager.register_to_channel n s c).1.entries.lookup c =
      some { sender := s.nextSender, subscribers := [s.nextUser] } := by
    rw [hent]
    exact lookup_append_of_none _ h
  rw [hrecv1]
  obtain ⟨hent2, hsend2, huser2⟩ :=
    unregister_of_single n (HubManager.register_to_channel n s c).1 c s.nextUser s.nextSender
      hlook1
  refine ⟨hent2, ?_, ?_⟩
  · obtain ⟨hent3, _, _, _⟩ := register_of_lookup_none n
      (HubManager.unregister_from_channel n (HubManager.register_to_channel n s c).1 c
        s.nextUser).1 c hent2
    unfold HubManager.dispatchTarget HubChannels.get_sender
    rw [hent3, lookup_append_of_none _ hent2]
    rfl
  · rw [hrecv2, hsend2, hsend]
    omega

/-- Claim C3 witness: one register/unregister/register round on topic `t1`
from the empty manager state. -/
theorem claim3_witness :
    HubManager.initSt.entries.lookup ("t1".toList) = none ∧
    ((HubManager.unregister_from_channel 1
        (HubManager.register_to_channel 1 HubManager.initSt ("t1".toList)).1 ("t1".toList)
        (HubManager.register_to_channel 1 HubManager.initSt
          ("t1".toList)).2.1.1).1.entries.lookup ("t1".toList) = none ∧
      HubManager.dispatchTarget
        (HubManager.register_to_channel 1
          (HubManager.unregister_from_channel 1
            (HubManager.register_to_channel 1 HubManager.initSt ("t1".toList)).1 ("t1".toList)
            (HubManager.register_to_channel 1 HubManager.initSt
              ("t1".toList)).2.1.1).1 ("t1".toList)).1 ("t1".toList) =
        some (HubManager.unregister_from_channel 1
          (HubManager.register_to_channel 1 HubManager.initSt ("t1".toList)).1 ("t1".toList)
          (HubManager.register_to_channel 1 HubManager.initSt
            ("t1".toList)).2.1.1).1.nextSender ∧
      (HubManager.unregister_from_channel 1
        (HubManager.register_to_channel 1 HubManager.initSt ("t1".toList)).1 ("t1".toList)
        (HubManager.register_to_channel 1 HubManager.initSt
          ("t1".toList)).2.1.1).1.nextSender ≠
        (HubManager.register_to_channel 1 HubManager.initSt ("t1".toList)).2.1.2) :=
  ⟨rfl, claim3 1 HubManager.initSt ("t1".toList) _ _ _ rfl rfl rfl rfl⟩

/-! ### Claim C4: streaming decoder vs single read -/

theorem drainAux_append (x : List Nat) : ∀ (a y : List Nat),
    drainAux a (x ++ y) =
      ((drainAux a x).1 ++ (drainAux (drainAux a x).2 y).1,
        (drainAux (drainAux a x).2 y).2) := by
  induction x with
  | nil => intro a y; simp [drainAux]
  | cons b rest ih =>
    intro a y
    by_cases hb : b = 10
    · subst hb
      rw [List.cons_append]
      show drainAux a (10 :: (rest ++ y)) = _
      simp only [drainAux, if_pos rfl]
      rw [ih [] y]
      simp
    · rw [List.cons_append]
      show drainAux a (b :: (rest ++ y)) = _
      simp only [drainAux, if_neg hb]
      exact ih (a ++ [b]) y

theorem drainAux_no_lf (x : List Nat) : ∀ a : List Nat, 10 ∉ x →
    drainAux a x = ([], a ++ x) := by
  induction x with
  | nil => intro a _; simp [drainAux]
  | cons b rest ih =>
    intro a h
    have hb : b ≠ 10 := fun hb => h (by rw [hb]; exact List.mem_cons_self _ _)
    simp only [drainAux, if_neg hb]
    rw [ih (a ++ [b]) (fun hm => h (List.mem_cons_of_mem _ hm))]
    simp

theorem drainAux_rem_no_lf (x : List Nat) : ∀ a : List Nat, 10 ∉ a →
    10 ∉ (drainAux a x).2 := by
  induction x with
  | nil => intro a h; exact h
  | cons b rest ih =>
    intro a h
    by_cases hb : b = 10
    · subst hb
      simp only [drainAux, if_pos rfl]
      exact ih [] (by simp)
    · simp only [drainAux, if_neg hb]
      exact ih (a ++ [b]) (by
        intro hm
        rcases List.mem_append.mp hm with hm | hm
        · exact h hm
        · exact hb (List.mem_singleton.mp hm).symm)

theorem drainAux_acc_eq (a l : List Nat) (h : 10 ∉ a) :
    drainAux [] (a ++ l) = drainAux a l := by
  rw [drainAux_append a [] l]
  rw [drainAux_no_lf a [] h]
  simp

theorem feedChunk_rem_no_lf (st c : List Nat) : 10 ∉ (SerialClient.feedChunk st c).1 := by
  unfold SerialClient.feedChunk drainLines
  exact drainAux_rem_no_lf (st ++ c) [] (by simp)

theorem feedChunk_append (st a b : List Nat) :
    SerialClient.feedChunk st (a ++ b) =
      ((SerialClient.feedChunk (SerialClient.feedChunk st a).1 b).1,
        (SerialClient.feedChunk st a).2 ++
          (SerialClient.feedChunk (SerialClient.feedChunk st a).1 b).2) := by
  unfold SerialClient.feedChunk drainLines
  rw [← List.append_assoc, drainAux_append (st ++ a) [] b]
  rw [drainAux_acc_eq _ b (drainAux_rem_no_lf (st ++ a) [] (by simp))]
  simp [List.filterMap_append]

theorem feedChunks_eq_join (chunks : List (List Nat)) : ∀ st : List Nat, 10 ∉ st →
    SerialClient.feedChunks st chunks = SerialClient.feedChunk st chunks.flatten := by
  induction chunks with
  | nil =>
    intro st h
    show (st, []) = SerialClient.feedChunk st [].flatten
    unfold SerialClient.feedChunk drainLines
    rw [List.flatten_nil, List.append_nil, drainAux_no_lf st [] h]
    simp
  | cons c cs ih =>
    intro st h
    show (let r := SerialClient.feedChunk st c;
          let r2 := SerialClient.feedChunks r.1 cs;
          (r2.1, r.2 ++ r2.2)) = _
    rw [List.flatten_cons, feedChunk_append st c cs.flatten]
    simp only
    rw [ih (SerialClient.feedChunk st c).1 (feedChunk_rem_no_lf st c)]

/-- Claim C4: feeding any partition of a byte stream chunk by chunk to the
serial streaming decoder yields exactly the messages (and final buffer) of
feeding the whole stream in one read. -/
theorem claim4 (chunks : List (List Nat)) :
    SerialClient.feedChunks [] chunks = SerialClient.feedChunk [] chunks.flatten :=
  feedChunks_eq_join chunks [] (by simp)

/-! ### Claim C7: frame encode/decode round trip -/

theorem findHH_cons_hh (l : Str) : findHH ('#' :: '#' :: l) = some 0 := by
  unfold findHH
  rw [if_pos ⟨rfl, rfl⟩]

theorem findHH_no_hash (u : Str) (v : Str) (h : '#' ∉ u) :
    findHH (u ++ '#' :: '#' :: v) = some u.length := by
  induction u with
  | nil => exact findHH_cons_hh v
  | cons c rest ih =>
    have hc : c ≠ '#' := fun hc => h (by rw [hc]; exact List.mem_cons_self _ _)
    rw [List.cons_append]
    show findHH (c :: (rest ++ '#' :: '#' :: v)) = _
    unfold findHH
    rw [if_neg (fun hcond => hc hcond.1)]
    rw [ih (fun hm => h (List.mem_cons_of_mem _ hm))]
    simp

theorem serial_fixed_chars {t : Str} (h : SerialChannelName.try_from t = .ok t) :
    ∀ c ∈ t, (rustIsAlphanumeric c || c == '_') = true := by
  unfold SerialChannelName.try_from at h
  by_cases hall : ((t.map asciiLower).filter serialKeepPred).all
      (fun c => rustIsAlphanumeric c || c == '_') = true
  · rw [if_pos hall] at h
    injection h with h
    rw [h] at hall
    exact List.all_eq_true.mp hall
  · rw [if_neg hall] at h
    exact absurd h (by simp)

theorem serialDataTrimPred_eq_hubData : serialDataTrimPred = hubDataTrimPred := by
  funext c
  unfold serialDataTrimPred hubDataTrimPred
  cases h1 : c == '\n' <;> cases h2 : c == '\r' <;> cases h3 : c == ' ' <;>
    simp [h1, h2, h3]

/-- Claim C7: for a topic name T fixed by the serial validator and a payload P
fixed by the payload trim, containing no LF and no `##`, extract_info on the
encoded frame `##T##P\n` returns exactly (T, P). -/
theorem claim7 (t p : Str)
    (ht : SerialChannelName.try_from t = .ok t)
    (hp : HubData.from_str p = p)
    (_hnl : '\n' ∉ p)
    (_hhh : findHH p = none) :
    SerialRawMessage.extract_info (SerialChannelName.tag t ++ p ++ ['\n']) = some (t, p) := by
  have hhash : '#' ∉ t := fun hm => absurd (serial_fixed_chars ht '#' hm) (by decide)
  have hframe : SerialChannelName.tag t ++ p ++ ['\n'] =
      '#' :: '#' :: (t ++ '#' :: '#' :: (p ++ ['\n'])) := by
    unfold SerialChannelName.tag
    simp
  have h3 : findHH (t ++ '#' :: '#' :: (p ++ ['\n'])) = some t.length :=
    findHH_no_hash t (p ++ ['\n']) hhash
  have h4 : (t ++ '#' :: '#' :: (p ++ ['\n'])).take t.length = t :=
    List.take_left t _
  have h5 : (t ++ '#' :: '#' :: (p ++ ['\n'])).drop (t.length + 2) = p ++ ['\n'] := by
    rw [show t ++ '#' :: '#' :: (p ++ ['\n']) = (t ++ ['#', '#']) ++ (p ++ ['\n']) by simp]
    exact List.drop_left' (by simp)
  have h6 : rustTrimMatches serialDataTrimPred (p ++ ['\n']) = p := by
    rw [serialDataTrimPred_eq_hubData]
    rw [rustTrimMatches_append_of_all p (by intro c hc; simp at hc; subst hc; decide)]
    exact hp
  unfold SerialRawMessage.extract_info
  rw [hframe, findHH_cons_hh]
  simp only [List.drop_succ_cons, List.drop_zero, h3, h4, h5, h6, ht]

/-- Claim C7 witness: the frame `##odometry##1,2,3\n`. -/
theorem claim7_witness :
    (SerialChannelName.try_from ("odometry".toList) = .ok ("odometry".toList) ∧
      HubData.from_str ("1,2,3".toList) = "1,2,3".toList ∧
      '\n' ∉ "1,2,3".toList ∧ findHH ("1,2,3".toList) = none) ∧
    SerialRawMessage.extract_info
        (SerialChannelName.tag ("odometry".toList) ++ "1,2,3".toList ++ ['\n']) =
      some ("odometry".toList, "1,2,3".toList) :=
  ⟨⟨rfl, rfl, by decide, rfl⟩,
   claim7 ("odometry".toList) ("1,2,3".toList) rfl rfl (by decide) rfl⟩

/-! ### Claim C8: invalid-prefix lines are skipped without desync -/

theorem decodeByte_eq_hash {b : Nat}
    (h : (if b < 0x80 then Char.ofNat b else replacementChar) = '#') : b = 35 := by
  by_cases hb : b < 0x80
  · rw [if_pos hb] at h
    have h2 := congrArg Char.toNat h
    rw [toNat_ofNat_valid b (by omega)] at h2
    rw [show Char.toNat '#' = 35 from rfl] at h2
    exact h2
  · rw [if_neg hb] at h
    exact absurd h (by decide)

theorem decodeLossy_take2 {u : List Nat} (h : (decodeLossy u).take 2 = ['#', '#']) :
    u.take 2 = [35, 35] := by
  match u with
  | [] => exact absurd h (by decide)
  | [b] =>
    exfalso
    have h2 : [(if b < 0x80 then Char.ofNat b else replacementChar)] = ['#', '#'] := h
    exact absurd (congrArg List.length h2) (by simp)
  | b1 :: b2 :: r =>
    have h2 : [(if b1 < 0x80 then Char.ofNat b1 else replacementChar),
        (if b2 < 0x80 then Char.ofNat b2 else replacementChar)] = ['#', '#'] := h
    rw [List.cons.injEq, List.cons.injEq] at h2
    obtain ⟨e1, e2, -⟩ := h2
    show [b1, b2] = [35, 35]
    rw [decodeByte_eq_hash e1, decodeByte_eq_hash e2]

theorem take2_append_lf {g : List Nat} (h : (g ++ [10]).take 2 = [35, 35]) :
    g.take 2 = [35, 35] := by
  match g with
  | [] => exact absurd h (by decide)
  | [b] =>
    exfalso
    have h2 : [b, 10] = [35, 35] := h
    rw [List.cons.injEq, List.cons.injEq] at h2
    exact absurd h2.2.1 (by decide)
  | b1 :: b2 :: r =>
    have h2 : [b1, b2] = [35, 35] := h
    exact h2

theorem processLine_invalid_prefix {g : List Nat} (h2 : g.take 2 ≠ [35, 35]) :
    SerialClient.processLine (g ++ [10]) = none := by
  have hno : ¬ ((decodeLossy (g ++ [10])).take 2 = ['#', '#']) := fun hpre =>
    h2 (take2_append_lf (decodeLossy_take2 hpre))
  unfold SerialClient.processLine
  rw [if_neg hno]

/-- Claim C8: a complete line that does not start with `##` yields no message,
and the decoding of everything after its LF is unchanged (no
desynchronization). -/
theorem claim8 (g rest : List Nat) (h1 : 10 ∉ g) (h2 : g.take 2 ≠ [35, 35]) :
    SerialClient.processLine (g ++ [10]) = none ∧
    SerialClient.feedChunk [] (g ++ 10 :: rest) = SerialClient.feedChunk [] rest := by
  have hnone := processLine_invalid_prefix h2
  refine ⟨hnone, ?_⟩
  unfold SerialClient.feedChunk drainLines
  rw [List.nil_append, List.nil_append]
  have hsplit : drainAux [] (g ++ 10 :: rest) =
      ((g ++ [10]) :: (drainAux [] rest).1, (drainAux [] rest).2) := by
    rw [show g ++ 10 :: rest = (g ++ [10]) ++ rest by simp, drainAux_append (g ++ [10]) [] rest]
    have hg10 : drainAux [] (g ++ [10]) = ([g ++ [10]], []) := by
      rw [drainAux_append g [] [10], drainAux_no_lf g [] h1]
      simp [drainAux]
    rw [hg10]
    simp
  rw [hsplit]
  simp [hnone]

/-- Claim C8 witness: the spec's pipe framing recovery scenario; the stream
`garbage\n##odometry##1,2,3\n` yields exactly one message, with topic
`odometry` and payload `1,2,3`. -/
theorem claim8_witness :
    (10 ∉ asciiBytes ("garbage".toList) ∧
      (asciiBytes ("garbage".toList)).take 2 ≠ [35, 35] ∧
      SerialClient.processLine (asciiBytes ("garbage".toList) ++ [10]) = none ∧
      SerialClient.feedChunk []
          (asciiBytes ("garbage".toList) ++ 10 :: asciiBytes ("##odometry##1,2,3\n".toList)) =
        SerialClient.feedChunk [] (asciiBytes ("##odometry##1,2,3\n".toList))) ∧
    SerialClient.feedChunk [] (asciiBytes ("garbage\n##odometry##1,2,3\n".toList)) =
      ([], [("odometry".toList, "1,2,3".toList)]) :=
  ⟨⟨by decide, by decide,
    claim8 (asciiBytes ("garbage".toList)) (asciiBytes ("##odometry##1,2,3\n".toList))
      (by decide) (by decide)⟩,
   by decide⟩

/-! ### Claim C5: WS server Data dispatch excludes the publisher -/

theorem filterMap_send_cons_keep {A : Nat} {T P : Str} (e : Nat × Nat) (rest : PeerMap)
    (he : e.1 ≠ A) :
    (e :: rest).filterMap
        (fun peer => if peer.1 ≠ A then some (peer.1, WsMessage.Data T P) else none) =
      (e.1, WsMessage.Data T P) :: rest.filterMap
        (fun peer => if peer.1 ≠ A then some (peer.1, WsMessage.Data T P) else none) := by
  rw [List.filterMap_cons, if_pos he]

theorem filterMap_send_cons_drop {A : Nat} {T P : Str} (e : Nat × Nat) (rest : PeerMap)
    (he : ¬ e.1 ≠ A) :
    (e :: rest).filterMap
        (fun peer => if peer.1 ≠ A then some (peer.1, WsMessage.Data T P) else none) =
      rest.filterMap
        (fun peer => if peer.1 ≠ A then some (peer.1, WsMessage.Data T P) else none) := by
  rw [List.filterMap_cons, if_neg he]

theorem sends_fst_sublist (peers : PeerMap) (A : Nat) (T P : Str) :
    ((peers.filterMap
        (fun peer => if peer.1 ≠ A then some (peer.1, WsMessage.Data T P) else none)).map
      Prod.fst).Sublist (peers.map Prod.fst) := by
  induction peers with
  | nil => simp
  | cons e rest ih =>
    by_cases he : e.1 ≠ A
    · rw [filterMap_send_cons_keep e rest he, List.map_cons, List.map_cons]
      exact ih.cons₂ e.1
    · rw [filterMap_send_cons_drop e rest he, List.map_cons]
      exact ih.cons e.1

/-- Claim C5: handling a `Data(T, P)` envelope from peer address A creates an
(empty) entry for T when absent, and enqueues a `Data(T, P)` envelope exactly
on the outbound queue of every peer registered under T whose address differs
from A; the publisher receives nothing, and each such peer is enqueued to
once. -/
theorem claim5 (cm : List (Str × PeerMap)) (T P : Str) (A : Nat)
    (hnd : ((peersOf cm T).map Prod.fst).Nodup) :
    (handle_ws_data cm T P A).1.lookup T = some (peersOf cm T) ∧
    (∀ e : Nat × WsMessage, e ∈ (handle_ws_data cm T P A).2 ↔
      ((∃ q, (e.1, q) ∈ peersOf cm T) ∧ e.1 ≠ A ∧ e.2 = WsMessage.Data T P)) ∧
    ((handle_ws_data cm T P A).2.map Prod.fst).Nodup := by
  unfold handle_ws_data
  cases h : cm.lookup T with
  | none =>
    have hpeers : peersOf cm T = [] := by
      unfold peersOf
      rw [h]
      rfl
    simp only [h, hpeers]
    simp [lookup_append_of_none ([] : PeerMap) h]
  | some peers =>
    have hpeers : peersOf cm T = peers := by
      unfold peersOf
      rw [h]
      rfl
    simp only [h, hpeers]
    refine ⟨by simp, ?_, ?_⟩
    · intro e
      rw [List.mem_filterMap]
      constructor
      · rintro ⟨a, ha, hfa⟩
        by_cases hA : a.1 ≠ A
        · rw [if_pos hA] at hfa
          injection hfa with hfa
          subst hfa
          exact ⟨⟨a.2, ha⟩, hA, rfl⟩
        · rw [if_neg hA] at hfa
          cases hfa
      · rintro ⟨⟨q, hq⟩, hA, he2⟩
        refine ⟨(e.1, q), hq, ?_⟩
        rw [if_pos hA, ← he2]
    · rw [hpeers] at hnd
      exact (sends_fst_sublist peers A T P).nodup hnd

/-- Claim C5 witness: peers 1 and 2 subscribed to `t`; peer 1 publishes and
only peer 2 is enqueued to. -/
theorem claim5_witness :
    ((peersOf [(("t".toList), [(1, 10), (2, 20)])] ("t".toList)).map Prod.fst).Nodup ∧
    ((handle_ws_data [(("t".toList), [(1, 10), (2, 20)])] ("t".toList) ("x".toList) 1).1.lookup
        ("t".toList) = some (peersOf [(("t".toList), [(1, 10), (2, 20)])] ("t".toList)) ∧
      (∀ e : Nat × WsMessage,
        e ∈ (handle_ws_data [(("t".toList), [(1, 10), (2, 20)])] ("t".toList)
            ("x".toList) 1).2 ↔
          ((∃ q, (e.1, q) ∈ peersOf [(("t".toList), [(1, 10), (2, 20)])] ("t".toList)) ∧
            e.1 ≠ 1 ∧ e.2 = WsMessage.Data ("t".toList) ("x".toList))) ∧
      ((handle_ws_data [(("t".toList), [(1, 10), (2, 20)])] ("t".toList)
          ("x".toList) 1).2.map Prod.fst).Nodup) :=
  ⟨by decide,
   claim5 [(("t".toList), [(1, 10), (2, 20)])] ("t".toList) ("x".toList) 1 (by decide)⟩

/-! ### Claim C9: WS envelope JSON round trip -/

theorem skipJsonWs_cons {c : Char} (r : Str) (h : jsonWs c = false) :
    skipJsonWs (c :: r) = c :: r := by
  unfold skipJsonWs
  rw [List.dropWhile_cons_of_neg (by simp [h])]

theorem hexVal_hexDigit (k : Nat) (h : k < 16) : hexVal (hexDigit k) = some k := by
  unfold hexVal hexDigit
  by_cases h10 : k < 10
  · rw [if_pos h10]
    have ht : (Char.ofNat (48 + k)).toNat = 48 + k := toNat_ofNat_valid _ (by omega)
    rw [ht, if_pos (by omega)]
    congr 1
    omega
  · rw [if_neg h10]
    have ht : (Char.ofNat (87 + k)).toNat = 87 + k := toNat_ofNat_valid _ (by omega)
    rw [ht, if_neg (by omega), if_pos (by omega)]
    congr 1
    omega

theorem ofNat_toNat_of_lt (c : Char) (h : c.toNat < 0xD800) : Char.ofNat c.toNat = c :=
  char_toNat_inj (toNat_ofNat_valid _ h)

theorem escapeChar_default (c : Char) (h1 : ¬ c = '"') (h2 : ¬ c = '\\')
    (h3 : ¬ c.toNat < 0x20) : escapeChar c = [c] := by
  unfold escapeChar
  rw [if_neg h1, if_neg h2, if_neg (by omega), if_neg (by omega), if_neg (by omega),
    if_neg (by omega), if_neg (by omega), if_neg h3]

theorem psb_close (rest : Str) : parseStringBody ('"' :: rest) = some ([], rest) := by
  rw [parseStringBody.eq_def]
  rfl

theorem psb_esc_quote (l : Str) :
    parseStringBody ('\\' :: '"' :: l) =
      (parseStringBody l).map (fun r => ('"' :: r.1, r.2)) := by
  rw [parseStringBody.eq_def]
  rfl

theorem psb_esc_backslash (l : Str) :
    parseStringBody ('\\' :: '\\' :: l) =
      (parseStringBody l).map (fun r => ('\\' :: r.1, r.2)) := by
  rw [parseStringBody.eq_def]
  rfl

theorem psb_esc_b (l : Str) :
    parseStringBody ('\\' :: 'b' :: l) =
      (parseStringBody l).map (fun r => (Char.ofNat 0x08 :: r.1, r.2)) := by
  rw [parseStringBody.eq_def]
  rfl

theorem psb_esc_f (l : Str) :
    parseStringBody ('\\' :: 'f' :: l) =
      (parseStringBody l).map (fun r => (Char.ofNat 0x0C :: r.1, r.2)) := by
  rw [parseStringBody.eq_def]
  rfl

theorem psb_esc_n (l : Str) :
    parseStringBody ('\\' :: 'n' :: l) =
      (parseStringBody l).map (fun r => ('\n' :: r.1, r.2)) := by
  rw [parseStringBody.eq_def]
  rfl

theorem psb_esc_r (l : Str) :
    parseStringBody ('\\' :: 'r' :: l) =
      (parseStringBody l).map (fun r => ('\r' :: r.1, r.2)) := by
  rw [parseStringBody.eq_def]
  rfl

theorem psb_esc_t (l : Str) :
    parseStringBody ('\\' :: 't' :: l) =
      (parseStringBody l).map (fun r => ('\t' :: r.1, r.2)) := by
  rw [parseStringBody.eq_def]
  rfl

theorem psb_default (c : Char) (l : Str) (h1 : ¬ c = '"') (h2 : ¬ c = '\\')
    (h3 : ¬ c.toNat < 0x20) :
    parseStringBody (c :: l) = (parseStringBody l).map (fun r => (c :: r.1, r.2)) := by
  rw [parseStringBody.eq_def]
  show (if c = '"' then some ([], l)
    else if c = '\\' then
      match l with
      | [] => none
      | e :: rest2 =>
        if e = '"' then (parseStringBody rest2).map (fun r => ('"' :: r.1, r.2))
        else if e = '\\' then (parseStringBody rest2).map (fun r => ('\\' :: r.1, r.2))
        else if e = '/' then (parseStringBody rest2).map (fun r => ('/' :: r.1, r.2))
        else if e = 'b' then
          (parseStringBody rest2).map (fun r => (Char.ofNat 0x08 :: r.1, r.2))
        else if e = 'f' then
          (parseStringBody rest2).map (fun r => (Char.ofNat 0x0C :: r.1, r.2))
        else if e = 'n' then (parseStringBody rest2).map (fun r => ('\n' :: r.1, r.2))
        else if e = 'r' then (parseStringBody rest2).map (fun r => ('\r' :: r.1, r.2))
        else if e = 't' then (parseStringBody rest2).map (fun r => ('\t' :: r.1, r.2))
        else if e = 'u' then
          match rest2 with
          | h1 :: h2 :: h3 :: h4 :: rest3 =>
            match hexVal h1, hexVal h2, hexVal h3, hexVal h4 with
            | some a, some b, some c2, some d =>
              let code := ((a * 16 + b) * 16 + c2) * 16 + d
              if code < 0xD800 then
                (parseStringBody rest3).map (fun r => (Char.ofNat code :: r.1, r.2))
              else none
            | _, _, _, _ => none
          | _ => none
        else none
    else if c.toNat < 0x20 then none
    else (parseStringBody l).map (fun r => (c :: r.1, r.2))) =
    (parseStringBody l).map (fun r => (c :: r.1, r.2))
  rw [if_neg h1, if_neg h2, if_neg h3]

theorem escapeChar_u (c : Char) (h1 : ¬ c = '"') (h2 : ¬ c = '\\')
    (h3 : ¬ c.toNat = 0x08) (h4 : ¬ c.toNat = 0x09) (h5 : ¬ c.toNat = 0x0A)
    (h6 : ¬ c.toNat = 0x0C) (h7 : ¬ c.toNat = 0x0D) (h8 : c.toNat < 0x20) :
    escapeChar c =
      ['\\', 'u', '0', '0', hexDigit (c.toNat / 16), hexDigit (c.toNat % 16)] := by
  unfold escapeChar
  rw [if_neg h1, if_neg h2, if_neg h3, if_neg h4, if_neg h5, if_neg h6, if_neg h7,
    if_pos h8]

theorem psb_u (c : Char) (l : Str) (h8 : c.toNat < 0x20) :
    parseStringBody
        ('\\' :: 'u' :: '0' :: '0' :: hexDigit (c.toNat / 16) ::
          hexDigit (c.toNat % 16) :: l) =
      (parseStringBody l).map (fun r => (c :: r.1, r.2)) := by
  have e1 : hexVal (hexDigit (c.toNat / 16)) = some (c.toNat / 16) :=
    hexVal_hexDigit _ (by omega)
  have e2 : hexVal (hexDigit (c.toNat % 16)) = some (c.toNat % 16) :=
    hexVal_hexDigit _ (by omega)
  rw [parseStringBody.eq_def]
  show (match hexVal '0', hexVal '0', hexVal (hexDigit (c.toNat / 16)),
      hexVal (hexDigit (c.toNat % 16)) with
    | some a, some b, some c2, some d =>
      let code := ((a * 16 + b) * 16 + c2) * 16 + d
      if code < 0xD800 then
        (parseStringBody l).map (fun r => (Char.ofNat code :: r.1, r.2))
      else none
    | _, _, _, _ => none) = (parseStringBody l).map (fun r => (c :: r.1, r.2))
  rw [show hexVal '0' = some 0 from rfl, e1, e2]
  show (if ((0 * 16 + 0) * 16 + c.toNat / 16) * 16 + c.toNat % 16 < 0xD800 then
      (parseStringBody l).map
        (fun r => (Char.ofNat (((0 * 16 + 0) * 16 + c.toNat / 16) * 16 + c.toNat % 16) ::
          r.1, r.2))
    else none) = _
  have hcode : ((0 * 16 + 0) * 16 + c.toNat / 16) * 16 + c.toNat % 16 = c.toNat := by
    omega
  rw [hcode, if_pos (by omega), ofNat_toNat_of_lt c (by omega)]

theorem psb_render (s : Str) : ∀ rest : Str,
    parseStringBody (s.flatMap escapeChar ++ '"' :: rest) = some (s, rest) := by
  induction s with
  | nil =>
    intro rest
    rw [List.flatMap_nil, List.nil_append]
    exact psb_close rest
  | cons c cs ih =>
    intro rest
    rw [List.flatMap_cons, List.append_assoc]
    by_cases h1 : c = '"'
    · subst h1
      rw [show escapeChar '"' = ['\\', '"'] from rfl]
      rw [show (['\\', '"'] : Str) ++ (cs.flatMap escapeChar ++ '"' :: rest) =
        '\\' :: '"' :: (cs.flatMap escapeChar ++ '"' :: rest) from rfl]
      rw [psb_esc_quote, ih rest]
      rfl
    · by_cases h2 : c = '\\'
      · subst h2
        rw [show escapeChar '\\' = ['\\', '\\'] from rfl]
        rw [show (['\\', '\\'] : Str) ++ (cs.flatMap escapeChar ++ '"' :: rest) =
          '\\' :: '\\' :: (cs.flatMap escapeChar ++ '"' :: rest) from rfl]
        rw [psb_esc_backslash, ih rest]
        rfl
      · by_cases h3 : c.toNat = 0x08
        · have hc : c = Char.ofNat 0x08 := by
            rw [← h3]
            exact (ofNat_toNat_of_lt c (by omega)).symm
          subst hc
          rw [show escapeChar (Char.ofNat 0x08) = ['\\', 'b'] from rfl]
          rw [show (['\\', 'b'] : Str) ++ (cs.flatMap escapeChar ++ '"' :: rest) =
            '\\' :: 'b' :: (cs.flatMap escapeChar ++ '"' :: rest) from rfl]
          rw [psb_esc_b, ih rest]
          rfl
        · by_cases h4 : c.toNat = 0x09
          · have hc : c = '\t' := by
              rw [show ('\t' : Char) = Char.ofNat 0x09 from rfl, ← h4]
              exact (ofNat_toNat_of_lt c (by omega)).symm
            subst hc
            rw [show escapeChar '\t' = ['\\', 't'] from rfl]
            rw [show (['\\', 't'] : Str) ++ (cs.flatMap escapeChar ++ '"' :: rest) =
              '\\' :: 't' :: (cs.flatMap escapeChar ++ '"' :: rest) from rfl]
            rw [psb_esc_t, ih rest]
            rfl
          · by_cases h5 : c.toNat = 0x0A
            · have hc : c = '\n' := by
                rw [show ('\n' : Char) = Char.ofNat 0x0A from rfl, ← h5]
                exact (ofNat_toNat_of_lt c (by omega)).symm
              subst hc
              rw [show escapeChar '\n' = ['\\', 'n'] from rfl]
              rw [show (['\\', 'n'] : Str) ++ (cs.flatMap escapeChar ++ '"' :: rest) =
                '\\' :: 'n' :: (cs.flatMap escapeChar ++ '"' :: rest) from rfl]
              rw [psb_esc_n, ih rest]
              rfl
            · by_cases h6 : c.toNat = 0x0C
              · have hc : c = Char.ofNat 0x0C := by
                  rw [← h6]
                  exact (ofNat_toNat_of_lt c (by omega)).symm
                subst hc
                rw [show escapeChar (Char.ofNat 0x0C) = ['\\', 'f'] from rfl]
                rw [show (['\\', 'f'] : Str) ++ (cs.flatMap escapeChar ++ '"' :: rest) =
                  '\\' :: 'f' :: (cs.flatMap escapeChar ++ '"' :: rest) from rfl]
                rw [psb_esc_f, ih rest]
                rfl
              · by_cases h7 : c.toNat = 0x0D
                · have hc : c = '\r' := by
                    rw [show ('\r' : Char) = Char.ofNat 0x0D from rfl, ← h7]
                    exact (ofNat_toNat_of_lt c (by omega)).symm
                  subst hc
                  rw [show escapeChar '\r' = ['\\', 'r'] from rfl]
                  rw [show (['\\', 'r'] : Str) ++ (cs.flatMap escapeChar ++ '"' :: rest) =
                    '\\' :: 'r' :: (cs.flatMap escapeChar ++ '"' :: rest) from rfl]
                  rw [psb_esc_r, ih rest]
                  rfl
                · by_cases h8 : c.toNat < 0x20
                  · rw [escapeChar_u c h1 h2 h3 h4 h5 h6 h7 h8]
                    rw [show (['\\', 'u', '0', '0', hexDigit (c.toNat / 16),
                        hexDigit (c.toNat % 16)] : Str) ++
                        (cs.flatMap escapeChar ++ '"' :: rest) =
                      '\\' :: 'u' :: '0' :: '0' :: hexDigit (c.toNat / 16) ::
                        hexDigit (c.toNat % 16) ::
                        (cs.flatMap escapeChar ++ '"' :: rest) from rfl]
                    rw [psb_u c _ h8, ih rest]
                    rfl
                  · rw [escapeChar_default c h1 h2 h8]
                    rw [show ([c] : Str) ++ (cs.flatMap escapeChar ++ '"' :: rest) =
                      c :: (cs.flatMap escapeChar ++ '"' :: rest) from rfl]
                    rw [psb_default c _ h1 h2 h8, ih rest]
                    rfl

theorem parseString_render (s : Str) (rest : Str) :
    parseString (renderString s ++ rest) = some (s, rest) := by
  unfold renderString
  rw [show ('"' :: s.flatMap escapeChar ++ ['"']) ++ rest =
    '"' :: (s.flatMap escapeChar ++ '"' :: rest) by simp]
  unfold parseString
  rw [skipJsonWs_cons _ (by decide)]
  exact psb_render s rest

theorem parseStrElems_succ (fuel : Nat) (s : Str) :
    parseStrElems (fuel + 1) s =
      match parseString s with
      | none => none
      | some (x, rest) =>
        match skipJsonWs rest with
        | ',' :: rest2 => (parseStrElems fuel rest2).map (fun r => (x :: r.1, r.2))
        | ']' :: rest2 => some ([x], rest2)
        | _ => none := by
  rw [parseStrElems.eq_def]

theorem parseStrElems_render (xs : List Str) (hne : xs ≠ []) : ∀ (fuel : Nat) (rest : Str),
    xs.length ≤ fuel →
    parseStrElems fuel (commaJoin xs ++ ']' :: rest) = some (xs, rest) := by
  induction xs with
  | nil => exact absurd rfl hne
  | cons x xs ih =>
    intro fuel rest hf
    cases fuel with
    | zero => exact absurd hf (by simp)
    | succ fuel =>
      cases xs with
      | nil =>
        rw [show commaJoin [x] = renderString x ++ [] from rfl, List.append_nil]
        rw [parseStrElems_succ, parseString_render x (']' :: rest)]
        show (match skipJsonWs (']' :: rest) with
          | ',' :: rest2 => (parseStrElems fuel rest2).map (fun r => (x :: r.1, r.2))
          | ']' :: rest2 => some ([x], rest2)
          | _ => none) = some ([x], rest)
        rw [skipJsonWs_cons _ (by decide)]
        rfl
      | cons y ys =>
        have hcj : commaJoin (x :: y :: ys) =
            renderString x ++ ',' :: commaJoin (y :: ys) := by
          rw [commaJoin.eq_def]
          rfl
        rw [hcj, List.append_assoc, List.cons_append]
        rw [parseStrElems_succ,
          parseString_render x (',' :: (commaJoin (y :: ys) ++ ']' :: rest))]
        show (match skipJsonWs (',' :: (commaJoin (y :: ys) ++ ']' :: rest)) with
          | ',' :: rest2 => (parseStrElems fuel rest2).map (fun r => (x :: r.1, r.2))
          | ']' :: rest2 => some ([x], rest2)
          | _ => none) = some (x :: y :: ys, rest)
        rw [skipJsonWs_cons _ (by decide)]
        show (parseStrElems fuel (commaJoin (y :: ys) ++ ']' :: rest)).map
            (fun r => (x :: r.1, r.2)) = some (x :: y :: ys, rest)
        rw [ih (by simp) fuel rest (by simp at hf ⊢; omega)]
        rfl

theorem parseStrArray_render (xs : List Str) (fuel : Nat) (hf : xs.length ≤ fuel)
    (rest : Str) :
    parseStrArray fuel (renderStrArray xs ++ rest) = some (xs, rest) := by
  have hshape : renderStrArray xs ++ rest = '[' :: (commaJoin xs ++ ']' :: rest) := by
    unfold renderStrArray
    simp
  rw [hshape]
  cases xs with
  | nil =>
    rw [show commaJoin [] = ([] : Str) from rfl, List.nil_append]
    unfold parseStrArray
    rw [skipJsonWs_cons _ (by decide)]
    show (match skipJsonWs (']' :: rest) with
      | ']' :: rest2 => some ([], rest2)
      | _ => parseStrElems fuel (']' :: rest)) = some ([], rest)
    rw [skipJsonWs_cons _ (by decide)]
    rfl
  | cons y ys =>
    have hz : commaJoin (y :: ys) ++ ']' :: rest =
        '"' :: (y.flatMap escapeChar ++ ['"'] ++
          ((if ys.isEmpty then ([] : Str) else ',' :: commaJoin ys) ++ ']' :: rest)) := by
      rw [show commaJoin (y :: ys) =
        renderString y ++ (if ys.isEmpty then ([] : Str) else ',' :: commaJoin ys) from by
          rw [commaJoin.eq_def]]
      unfold renderString
      simp
    rw [hz]
    unfold parseStrArray
    rw [skipJsonWs_cons _ (by decide)]
    show (match skipJsonWs ('"' :: (y.flatMap escapeChar ++ ['"'] ++
        ((if ys.isEmpty then ([] : Str) else ',' :: commaJoin ys) ++ ']' :: rest))) with
      | ']' :: rest2 => some ([], rest2)
      | _ => parseStrElems fuel ('"' :: (y.flatMap escapeChar ++ ['"'] ++
          ((if ys.isEmpty then ([] : Str) else ',' :: commaJoin ys) ++ ']' :: rest)))) =
      some (y :: ys, rest)
    rw [skipJsonWs_cons _ (by decide)]
    show parseStrElems fuel ('"' :: (y.flatMap escapeChar ++ ['"'] ++
        ((if ys.isEmpty then ([] : Str) else ',' :: commaJoin ys) ++ ']' :: rest))) =
      some (y :: ys, rest)
    rw [← hz]
    exact parseStrElems_render (y :: ys) (by simp) fuel rest hf

theorem renderString_length (s : Str) : 2 ≤ (renderString s).length := by
  unfold renderString
  simp

theorem commaJoin_length (xs : List Str) : xs.length ≤ (commaJoin xs).length + 1 := by
  induction xs with
  | nil => simp
  | cons x xs ih =>
    have hx := renderString_length x
    rw [show commaJoin (x :: xs) =
      renderString x ++ (if xs.isEmpty then ([] : Str) else ',' :: commaJoin xs) from by
        rw [commaJoin.eq_def]]
    cases xs with
    | nil => simp
    | cons y ys =>
      rw [if_neg (by simp)]
      simp only [List.length_append, List.length_cons] at *
      omega

theorem try_from_lbrace (X : Str) :
    WsMessage.try_from (lbrace :: X) =
      (match parseString X with
       | none => none
       | some (key, r1) =>
         match skipJsonWs r1 with
         | ':' :: r2 => wsDispatchKey (lbrace :: X).length key r2
         | _ => none) := by
  unfold WsMessage.try_from
  rw [skipJsonWs_cons _ (by decide)]
  rfl

/-- Claim C9: for every WebSocket envelope value of the five variants,
decoding the JSON text produced by encoding it returns the same value:
`WsMessage::try_from(v.to_string()) == v`. -/
theorem claim9 (v : WsMessage) : WsMessage.try_from (v.to_string) = some v := by
  cases v with
  | ListChannelsReq => decide
  | Subscribe c =>
    rw [show WsMessage.to_string (.Subscribe c) =
        lbrace :: (renderString ("Subscribe".toList) ++
          ':' :: (renderString c ++ [rbrace])) from by
      simp [WsMessage.to_string]]
    rw [try_from_lbrace]
    rw [parseString_render ("Subscribe".toList) (':' :: (renderString c ++ [rbrace]))]
    show (match skipJsonWs (':' :: (renderString c ++ [rbrace])) with
      | ':' :: r2 =>
        wsDispatchKey (lbrace :: (renderString ("Subscribe".toList) ++
          ':' :: (renderString c ++ [rbrace]))).length ("Subscribe".toList) r2
      | _ => none) = some (WsMessage.Subscribe c)
    rw [skipJsonWs_cons _ (by decide)]
    show wsDispatchKey (lbrace :: (renderString ("Subscribe".toList) ++
        ':' :: (renderString c ++ [rbrace]))).length ("Subscribe".toList)
        (renderString c ++ [rbrace]) = some (WsMessage.Subscribe c)
    unfold wsDispatchKey
    rw [if_pos rfl]
    unfold wsParseStringPayload
    rw [parseString_render c [rbrace]]
    rfl
  | Unsubscribe c =>
    rw [show WsMessage.to_string (.Unsubscribe c) =
        lbrace :: (renderString ("Unsubscribe".toList) ++
          ':' :: (renderString c ++ [rbrace])) from by
      simp [WsMessage.to_string]]
    rw [try_from_lbrace]
    rw [parseString_render ("Unsubscribe".toList) (':' :: (renderString c ++ [rbrace]))]
    show (match skipJsonWs (':' :: (renderString c ++ [rbrace])) with
      | ':' :: r2 =>
        wsDispatchKey (lbrace :: (renderString ("Unsubscribe".toList) ++
          ':' :: (renderString c ++ [rbrace]))).length ("Unsubscribe".toList) r2
      | _ => none) = some (WsMessage.Unsubscribe c)
    rw [skipJsonWs_cons _ (by decide)]
    show wsDispatchKey (lbrace :: (renderString ("Unsubscribe".toList) ++
        ':' :: (renderString c ++ [rbrace]))).length ("Unsubscribe".toList)
        (renderString c ++ [rbrace]) = some (WsMessage.Unsubscribe c)
    unfold wsDispatchKey
    rw [if_neg (by decide), if_pos rfl]
    unfold wsParseStringPayload
    rw [parseString_render c [rbrace]]
    rfl
  | ListChannelsResponse cs =>
    rw [show WsMessage.to_string (.ListChannelsResponse cs) =
        lbrace :: (renderString ("ListChannelsResponse".toList) ++
          ':' :: (renderStrArray cs ++ [rbrace])) from by
      simp [WsMessage.to_string]]
    rw [try_from_lbrace]
    rw [parseString_render ("ListChannelsResponse".toList)
      (':' :: (renderStrArray cs ++ [rbrace]))]
    show (match skipJsonWs (':' :: (renderStrArray cs ++ [rbrace])) with
      | ':' :: r2 =>
        wsDispatchKey (lbrace :: (renderString ("ListChannelsResponse".toList) ++
          ':' :: (renderStrArray cs ++ [rbrace]))).length ("ListChannelsResponse".toList) r2
      | _ => none) = some (WsMessage.ListChannelsResponse cs)
    rw [skipJsonWs_cons _ (by decide)]
    show wsDispatchKey (lbrace :: (renderString ("ListChannelsResponse".toList) ++
        ':' :: (renderStrArray cs ++ [rbrace]))).length ("ListChannelsResponse".toList)
        (renderStrArray cs ++ [rbrace]) = some (WsMessage.ListChannelsResponse cs)
    unfold wsDispatchKey
    rw [if_neg (by decide), if_neg (by decide), if_pos rfl]
    unfold wsParseListResp
    rw [parseStrArray_render cs _ ?hfuel [rbrace]]
    · rfl
    case hfuel =>
      have h1 := commaJoin_length cs
      simp [renderStrArray]
      omega
  | Data c d =>
    rw [show WsMessage.to_string (.Data c d) =
        lbrace :: (renderString ("Data".toList) ++
          ':' :: '[' :: (renderString c ++
            ',' :: (renderString d ++ ']' :: [rbrace]))) from by
      simp [WsMessage.to_string]]
    rw [try_from_lbrace]
    rw [parseString_render ("Data".toList)
      (':' :: '[' :: (renderString c ++ ',' :: (renderString d ++ ']' :: [rbrace])))]
    show (match skipJsonWs (':' :: '[' :: (renderString c ++
        ',' :: (renderString d ++ ']' :: [rbrace]))) with
      | ':' :: r2 =>
        wsDispatchKey (lbrace :: (renderString ("Data".toList) ++
          ':' :: '[' :: (renderString c ++
            ',' :: (renderString d ++ ']' :: [rbrace])))).length ("Data".toList) r2
      | _ => none) = some (WsMessage.Data c d)
    rw [skipJsonWs_cons _ (by decide)]
    show wsDispatchKey (lbrace :: (renderString ("Data".toList) ++
        ':' :: '[' :: (renderString c ++
          ',' :: (renderString d ++ ']' :: [rbrace])))).length ("Data".toList)
        ('[' :: (renderString c ++ ',' :: (renderString d ++ ']' :: [rbrace]))) =
      some (WsMessage.Data c d)
    unfold wsDispatchKey
    rw [if_neg (by decide), if_neg (by decide), if_neg (by decide), if_pos rfl]
    unfold wsParseData
    rw [skipJsonWs_cons _ (by decide)]
    show (match parseString (renderString c ++
        ',' :: (renderString d ++ ']' :: [rbrace])) with
      | some (ch, r4) =>
        (match skipJsonWs r4 with
         | ',' :: r5 =>
           (match parseString r5 with
            | some (d2, r6) =>
              (match skipJsonWs r6 with
               | ']' :: r7 =>
                 if closesObject r7 then some (WsMessage.Data ch d2) else none
               | _ => none)
            | none => none)
         | _ => none)
      | none => none) = some (WsMessage.Data c d)
    rw [parseString_render c (',' :: (renderString d ++ ']' :: [rbrace]))]
    show (match skipJsonWs (',' :: (renderString d ++ ']' :: [rbrace])) with
      | ',' :: r5 =>
        (match parseString r5 with
         | some (d2, r6) =>
           (match skipJsonWs r6 with
            | ']' :: r7 =>
              if closesObject r7 then some (WsMessage.Data c d2) else none
            | _ => none)
         | none => none)
      | _ => none) = some (WsMessage.Data c d)
    rw [skipJsonWs_cons _ (by decide)]
    show (match parseString (renderString d ++ ']' :: [rbrace]) with
      | some (d2, r6) =>
        (match skipJsonWs r6 with
         | ']' :: r7 => if closesObject r7 then some (WsMessage.Data c d2) else none
         | _ => none)
      | none => none) = some (WsMessage.Data c d)
    rw [parseString_render d (']' :: [rbrace])]
    rfl

end Robopilot
